import Mathlib

/-!
Verification of the template-compiler core (tokenizer, AST builder,
text-interpolation parser, code generator) against its specification.

The development shallowly embeds the source files:
  * the code generator (`CodegenState`, `generate`, `genElement`, `genStatic`,
    `genOnce`, `genIf`/`genIfConditions`, `genFor`, `genData`, `genChildren`,
    `getNormalizationType`, `genNode`, `genText`, `genComment`, `genSlot`,
    `genComponent`, `genInlineTemplate`, `genScopedSlots`, ...),
  * the text-interpolation parser (`parseText`),
  * the tokenizer's end-tag handling (`parseEndTag`, `handleStartTag`),
  * the AST builder's conditional-branch resolution (`processIfConditions`,
    `findPrevElement`).

Embedding conventions, used throughout:
  * The source mutates AST nodes in place (processing guards such as
    `ifProcessed`) and threads a per-compile mutable `CodegenState`; here both
    are modelled by explicit state passing: functions return their result
    together with the updated state, and "mutated" elements are rebuilt with
    the flag set.
  * The source's diagnostic sink `options.warn(msg, tip)` is modelled as an
    append-only `warnings` list inside the threaded state.
  * Javascript truthiness tests on string-valued fields (`el.if`, `el.key`,
    ...) are modelled by `optTruthy`: the field is absent, or present and
    non-empty.
  * In the source, `el.ifConditions[0].block` is the element itself (the same
    object); an inductive tree cannot hold that cycle, so an element stores
    only the appended extra branches (`ifConditionsRest`) and the full ordered
    branch list of the source is reconstructed by `fullIfConditions`, whose
    head block is the element itself with its current flags.
  * Parent pointers cannot exist in an inductive tree; the ancestor chain
    (what the source reaches through `el.parent`) is passed explicitly as a
    context list `Ctx`, nearest ancestor first, extended at each recursion
    into children.
  * The recursion of the code generator terminates in the source because each
    processing guard is set before re-entering the same node; the embedding
    uses an explicit fuel parameter instead, decremented on entry to
    `genElement`; every theorem holds for every fuel value, and witnesses
    evaluate at a concrete sufficient fuel.
  * The build is modelled in development ("non-production") configuration, in
    which diagnostics are emitted.
-/

namespace VueCore

/-- Javascript truthiness of an optional string field: present and non-empty. -/
def optTruthy : Option String → Bool
  | some s => !s.isEmpty
  | none => false

/-- One hexadecimal digit. -/
def hexDigit (n : Nat) : Char :=
  if n < 10 then Char.ofNat (48 + n) else Char.ofNat (87 + n)

/-- Four-digit lowercase hexadecimal rendering, as in a \uXXXX escape. -/
def hex4 (n : Nat) : String :=
  String.mk [hexDigit (n / 4096 % 16), hexDigit (n / 256 % 16),
             hexDigit (n / 16 % 16), hexDigit (n % 16)]

/-- How JSON.stringify escapes one character inside a double-quoted string. -/
def jsonEscapeChar (c : Char) : String :=
  if c = '"' then "\\\""
  else if c = '\\' then "\\\\"
  else if c = '\n' then "\\n"
  else if c = '\r' then "\\r"
  else if c = '\t' then "\\t"
  else if c = Char.ofNat 8 then "\\b"
  else if c = Char.ofNat 12 then "\\f"
  else if c.toNat < 32 then "\\u" ++ hex4 c.toNat
  else String.singleton c

/-- JSON.stringify of a string value: double quotes around the escaped text. -/
def jsonStringify (s : String) : String :=
  "\"" ++ String.join (s.data.map jsonEscapeChar) ++ "\""

/-- transformSpecialNewlines: escape the two line/paragraph-separator code
points (invalid unescaped in script-evaluable string literals). -/
def transformSpecialNewlines (text : String) : String :=
  String.join (text.data.map fun c =>
    if c = Char.ofNat 0x2028 then "\\u2028"
    else if c = Char.ofNat 0x2029 then "\\u2029"
    else String.singleton c)

/-- A word character, the \w class of the camelize pattern. -/
def isWordChar (c : Char) : Bool :=
  c.isAlpha || c.isDigit || c = '_'

/-- camelize (shared utility, modelled from the spec's "camel-case rename"):
each hyphen followed by a word character becomes that character uppercased. -/
def camelizeChars : List Char → List Char
  | [] => []
  | '-' :: c :: rest =>
    if isWordChar c then c.toUpper :: camelizeChars rest
    else '-' :: camelizeChars (c :: rest)
  | c :: rest => c :: camelizeChars rest

/-- camelize on strings. -/
def camelize (s : String) : String :=
  String.mk (camelizeChars s.data)

/-- An attribute: name and value, as carried on `attrsList`, `attrs`, `props`. -/
structure Attr where
  name : String
  value : String
deriving Repr, DecidableEq

/-- A directive occurrence as stored on `el.directives`: name, raw-as-written
name, bound expression, optional argument, modifier set (insertion order). -/
structure Dir where
  name : String
  rawName : String
  value : String
  arg : Option String := none
  modifiers : Option (List String) := none
deriving Repr, DecidableEq

/-- An event handler entry (the events module itself is not among the provided
sources; per the spec each event name maps to an ordered handler sequence). -/
structure Handler where
  value : String
deriving Repr, DecidableEq

/-- The data captured by the bind directive's `el.wrapData` closure
(part_002): the v-bind object expression and the prop/sync modifiers. -/
structure WrapData where
  value : String
  prop : Bool
  sync : Bool
deriving Repr, DecidableEq

/-- A diagnostic sent to the sink: message and tip flag (warn(msg, isTip)). -/
structure Warning where
  msg : String
  tip : Bool := false
deriving Repr, DecidableEq

/-- A raw interpolation token of `parseText`: a literal string segment or an
expression segment wrapped as a binding marker. -/
inductive RawToken where
  | str (s : String)
  | binding (e : String)
deriving Repr, DecidableEq

/-- The scalar (non-recursive) fields of an AST element. Field-for-field from
the source's ASTElement, except: `forExp`, `ifExp`, `elseFlag`, `elseifExp`
render the keyword field names `for`, `if`, `else`, `elseif`, and `aliasExp`
renders `alias` (a keyword here); string fields
that the source leaves undefined until set are Options; `wrapData` stores the
data captured by the bind directive's closure (part_002) rather than the
closure itself. -/
structure ElScalars where
  tag : String := "div"
  attrsList : List Attr := []
  attrsMap : List (String × String) := []
  ns : Option String := none
  forbidden : Bool := false
  pre : Bool := false
  plain : Bool := true
  processed : Bool := false
  forExp : Option String := none
  aliasExp : Option String := none
  iterator1 : Option String := none
  iterator2 : Option String := none
  ifExp : Option String := none
  elseFlag : Bool := false
  elseifExp : Option String := none
  once : Bool := false
  key : Option String := none
  ref : Option String := none
  refInFor : Bool := false
  slotName : Option String := none
  slotScope : Option String := none
  slotTarget : Option String := none
  component : Option String := none
  inlineTemplate : Bool := false
  hasBindings : Bool := false
  staticRoot : Bool := false
  staticInFor : Bool := false
  staticProcessed : Bool := false
  onceProcessed : Bool := false
  forProcessed : Bool := false
  ifProcessed : Bool := false
  attrs : List Attr := []
  props : List Attr := []
  events : List (String × List Handler) := []
  nativeEvents : List (String × List Handler) := []
  directives : List Dir := []
  wrapData : Option WrapData := none
  model : Option (String × String × String) := none
deriving Repr

/-- An AST node: an element (type 1), an interpolated-text node (type 2:
expression, raw token list, source text), or a text/comment node (type 3).
An element carries its scalar fields, its owned children, its appended extra
conditional branches (see `fullIfConditions`), and its scoped-slot
registrations (name-keyed). -/
inductive ASTNode where
  | el (s : ElScalars) (children : List ASTNode)
       (ifConditionsRest : List (Option String × ASTNode))
       (scopedSlots : List (String × ASTNode))
  | interp (expression : String) (tokens : List RawToken) (text : String)
  | txt (text : String) (isComment : Bool)
deriving Repr

/-- Whether a node is an element (type === 1). -/
def ASTNode.isElem : ASTNode → Bool
  | .el _ _ _ _ => true
  | _ => false

/-- The scalar fields of an element node (defaults for non-elements, which the
element-only code paths never receive). -/
def ASTNode.scalars : ASTNode → ElScalars
  | .el s _ _ _ => s
  | _ => {}

/-- The children of an element node. -/
def ASTNode.childNodes : ASTNode → List ASTNode
  | .el _ ch _ _ => ch
  | _ => []

/-- The ordered conditional branch list of the source (`el.ifConditions`):
its first entry is the element itself as block with its own guard (the source
stores the element object there), followed by the appended extra branches. -/
def fullIfConditions : ASTNode → List (Option String × ASTNode)
  | .el s ch ifs sl =>
    (if optTruthy s.ifExp then [(s.ifExp, ASTNode.el s ch ifs sl)] else []) ++ ifs
  | _ => []

/-- The ancestor chain an element reaches through `el.parent`, nearest first,
with each ancestor's effective (inherited) `pre` already applied. -/
abbrev Ctx := List ElScalars

/-- The compiler options the code generator consumes. Platform module hook
lists (`transformCode`, `genData` modules) are pluggable platform transforms,
out of scope per the spec; within the provided sources none are installed. -/
structure CodegenOptions where
  isReservedTag : String → Bool
  dataGenFns : List (ElScalars → String) := []
  transforms : List (ElScalars → String → String) := []

/-- The per-compile mutable codegen context (source class CodegenState):
run-once id counter, hoisted static program list, preserve-raw flag; the
diagnostic sink is modelled as the append-only `warnings` list. -/
structure CodegenState where
  options : CodegenOptions
  onceId : Nat := 0
  staticRenderFns : List String := []
  pre : Bool := false
  warnings : List Warning := []

/-- state.maybeComponent: not (a reserved tag without an `is` binding). -/
def maybeComponent (st : CodegenState) (s : ElScalars) : Bool :=
  !(st.options.isReservedTag s.tag && !optTruthy s.component)

/-- Javascript truthiness of `el.for` (a non-empty iteration source). -/
def truthyFor (s : ElScalars) : Bool :=
  optTruthy s.forExp

/-- Append one diagnostic to the modelled sink. -/
def CodegenState.warn (st : CodegenState) (msg : String) (tip : Bool := false) :
    CodegenState :=
  { st with warnings := st.warnings ++ [⟨msg, tip⟩] }

/-- Rebuild an element with its `staticProcessed` guard set (the source sets
the field in place). -/
def setStaticProcessed : ASTNode → ASTNode
  | .el s ch ifs sl => .el { s with staticProcessed := true } ch ifs sl
  | n => n

/-- Rebuild an element with its `onceProcessed` guard set. -/
def setOnceProcessed : ASTNode → ASTNode
  | .el s ch ifs sl => .el { s with onceProcessed := true } ch ifs sl
  | n => n

/-- Rebuild an element with its `ifProcessed` guard set. -/
def setIfProcessed : ASTNode → ASTNode
  | .el s ch ifs sl => .el { s with ifProcessed := true } ch ifs sl
  | n => n

/-- Rebuild an element with its `forProcessed` guard set. -/
def setForProcessed : ASTNode → ASTNode
  | .el s ch ifs sl => .el { s with forProcessed := true } ch ifs sl
  | n => n

/-- genProps: render an attribute/property list as `"name":value` pairs,
comma-joined (the non-WEEX branch of the source). -/
def genProps (props : List Attr) : String :=
  String.intercalate ","
    (props.map fun p => "\"" ++ p.name ++ "\":" ++ transformSpecialNewlines p.value)

/-- The modifier object rendered the way JSON.stringify renders
`{ m1: true, m2: true }`, in insertion order. -/
def modifiersJson (ms : List String) : String :=
  "\x7b" ++ String.intercalate "," (ms.map fun m => "\"" ++ m ++ "\":true") ++ "\x7d"

/-- Whether a directive occurrence carries a given modifier. -/
def hasModifier (dir : Dir) (m : String) : Bool :=
  match dir.modifiers with
  | some ms => ms.contains m
  | none => false

/-- The bind directive (part_002): records on the element the data its
`el.wrapData` closure captures (v-bind object expression, prop and sync
modifiers) and needs no runtime counterpart (the source returns undefined). -/
def bindDirective (s : ElScalars) (dir : Dir) : Bool × ElScalars :=
  let w := WrapData.mk dir.value (hasModifier dir "prop") (hasModifier dir "sync")
  (false, { s with wrapData := some w })

/-- One runtime directive descriptor of genDirectives. -/
def dirDescriptor (dir : Dir) : String :=
  "\x7bname:\"" ++ dir.name ++ "\",rawName:\"" ++ dir.rawName ++ "\"" ++
  (if dir.value.isEmpty then ""
   else ",value:(" ++ dir.value ++ "),expression:" ++ jsonStringify dir.value) ++
  (match dir.arg with
   | some a => if a.isEmpty then "" else ",arg:\"" ++ a ++ "\""
   | none => "") ++
  (match dir.modifiers with
   | some ms => ",modifiers:" ++ modifiersJson ms
   | none => "") ++
  "\x7d"

/-- genDirectives: run each occurrence through the compile-time registry
(within the provided sources that registry holds the bind directive,
part_002; a registry hit decides whether a runtime descriptor is still
required), returning the `directives:[...]` text when any descriptor
remains, together with the element mutations the registry performed. -/
def genDirectives (s : ElScalars) : Option String × ElScalars :=
  if s.directives.isEmpty then (none, s)
  else
    let step := fun (acc : List String × ElScalars) (dir : Dir) =>
      if dir.name = "bind" then
        let (needRuntime, s') := bindDirective acc.2 dir
        (if needRuntime then acc.1 ++ [dirDescriptor dir] else acc.1, s')
      else
        (acc.1 ++ [dirDescriptor dir], acc.2)
    let r := s.directives.foldl step ([], s)
    (if r.1.isEmpty then none
     else some ("directives:[" ++ String.intercalate "," r.1 ++ "]"), r.2)

/-- Render one event's ordered handler sequence. Modelled from the spec: the
event-codegen module is not among the provided sources; per the spec each
event name maps to an ordered sequence supporting multiple handlers. -/
def renderHandlers : List Handler → String
  | [h] => h.value
  | hs => "[" ++ String.intercalate "," (hs.map Handler.value) ++ "]"

/-- genHandlers. Modelled from the spec: the event-codegen module is not
among the provided sources; the spec fixes only that regular and
native-targeted maps are emitted separately, names to handler sequences. -/
def genHandlers (events : List (String × List Handler)) (native : Bool) : String :=
  (if native then "nativeOn:\x7b" else "on:\x7b") ++
  String.intercalate ","
    (events.map fun p => "\"" ++ p.1 ++ "\":" ++ renderHandlers p.2) ++
  "\x7d"

/-- genText: an interpolated node compiles to its expression (already wrapped
in the to-string call), a literal one to its JSON-quoted text with the two
special line separators additionally escaped, in a `_v(...)` call. -/
def genText : ASTNode → String
  | .interp expression _ _ => "_v(" ++ expression ++ ")"
  | .txt t _ => "_v(" ++ transformSpecialNewlines (jsonStringify t) ++ ")"
  | .el _ _ _ _ => "_v(undefined)"

/-- genComment: a comment node compiles to the empty-node marker call with
its JSON-quoted text. -/
def genComment : ASTNode → String
  | .txt t _ => "_e(" ++ jsonStringify t ++ ")"
  | .interp _ _ t => "_e(" ++ jsonStringify t ++ ")"
  | .el _ _ _ _ => "_e(\"\")"

/-- Thread the codegen state through a list of compilations, collecting the
emitted strings in order (how the source's `children.map(c => gen(c, state))`
behaves on its shared mutable state). -/
def seqCompile {α : Type} (f : α → CodegenState → String × CodegenState) :
    List α → CodegenState → List String × CodegenState
  | [], st => ([], st)
  | c :: rest, st =>
    let r1 := f c st
    let r2 := seqCompile f rest r1.2
    (r1.1 :: r2.1, r2.2)

/-- genIfConditions: fold the ordered conditional branch list into a
right-associated ternary chain; a guarded branch contributes
`(guard)?compiled:`, the first unguarded branch becomes the unconditional
tail, and an exhausted list compiles to the empty-node marker call. The
branch compiler (the source's inner genTernaryExp closing over the state) is
the function argument `gen`; the alternate-generator and alternate-empty
parameters of the source have no caller within the provided sources. -/
def genIfConditions (gen : ASTNode → CodegenState → String × CodegenState) :
    List (Option String × ASTNode) → CodegenState → String × CodegenState
  | [], st => ("_e()", st)
  | (exp, block) :: rest, st =>
    if optTruthy exp then
      let c := gen block st
      let t := genIfConditions gen rest c.2
      ("(" ++ exp.getD "" ++ ")?" ++ c.1 ++ ":" ++ t.1, t.2)
    else
      gen block st

/-- needsNormalization: an element is structurally an iteration node, a
transparent template, or a slot outlet (`el.for !== undefined` is
presence, not truthiness, in the source). -/
def needsNormalization : ASTNode → Bool
  | .el s _ _ _ => s.forExp.isSome || s.tag == "template" || s.tag == "slot"
  | _ => false

/-- The full-normalization test of one child: itself or some branch of its
conditional group needs normalization. -/
def normFull (node : ASTNode) : Bool :=
  needsNormalization node ||
    (fullIfConditions node).any fun c => needsNormalization c.2

/-- The simple-normalization test of one child: itself or some branch of its
conditional group may be a component (the loop only applies it to elements,
and conditional blocks are elements). -/
def normSimple (mc : ElScalars → Bool) (node : ASTNode) : Bool :=
  mc node.scalars ||
    (fullIfConditions node).any fun c => mc c.2.scalars

/-- The accumulator loop of getNormalizationType: full normalization wins
immediately (the source breaks), simple normalization is sticky. -/
def getNormalizationTypeGo (mc : ElScalars → Bool) :
    List ASTNode → Nat → Nat
  | [], res => res
  | c :: rest, res =>
    if !c.isElem then getNormalizationTypeGo mc rest res
    else if normFull c then 2
    else if normSimple mc c then getNormalizationTypeGo mc rest 1
    else getNormalizationTypeGo mc rest res

/-- getNormalizationType: 0 none, 1 simple (possible 1-level nested array),
2 full, over the children array. -/
def getNormalizationType (mc : ElScalars → Bool) (children : List ASTNode) : Nat :=
  getNormalizationTypeGo mc children 0

/-- The raw-markup flag of the nearest ancestor (what `el.parent.pre` reads;
false at the root, where `el.parent` is undefined). -/
def parentPre : Ctx → Bool
  | p :: _ => p.pre
  | [] => false

/-- The shape of a node generator (genElement and its peers) with the fuel
already applied. -/
abbrev GenFn := ASTNode → Ctx → CodegenState → String × CodegenState

/-- The shape of genChildren with the fuel already applied. -/
abbrev GenChildrenFn :=
  ASTNode → Ctx → CodegenState → Bool → Option String × CodegenState

/-- The shape of a keyed scoped-slot generator with the fuel applied. -/
abbrev GenSlotFn := String → ASTNode → Ctx → CodegenState → String × CodegenState

/-- The shape of genInlineTemplate with the fuel applied. -/
abbrev GenInlineFn := ASTNode → Ctx → CodegenState → Option String × CodegenState

/-- The shape of generate with the fuel applied. -/
abbrev GenerateFn :=
  Option ASTNode → Ctx → CodegenOptions → String × List String × List Warning

/-- The shape of genComponent with the fuel applied. -/
abbrev GenComponentFn :=
  String → ASTNode → Ctx → CodegenState → String × CodegenState

/-- The fixed-priority dispatch of genElement over an element's components
(its recursive calls abstracted; each fueled definition below instantiates
them one fuel level down): static hoist, run-once, iteration, conditional,
transparent template, slot outlet, and finally the ordinary construction
call (dynamic component when an `is` binding resolved, else tag + optional
data + optional children), passed through the platform code-transform hooks
(none are installed within the provided sources). -/
def genElementDispatch (GS GO GF GI GSlot GData : GenFn) (GCh : GenChildrenFn)
    (GComp : GenComponentFn) (s : ElScalars) (ch : List ASTNode)
    (ifs : List (Option String × ASTNode)) (sl : List (String × ASTNode))
    (ctx : Ctx) (st : CodegenState) : String × CodegenState :=
    let node := ASTNode.el s ch ifs sl
    if s.staticRoot && !s.staticProcessed then
      GS node ctx st
    else if s.once && !s.onceProcessed then
      GO node ctx st
    else if truthyFor s && !s.forProcessed then
      GF node ctx st
    else if optTruthy s.ifExp && !s.ifProcessed then
      GI node ctx st
    else if s.tag == "template" && !optTruthy s.slotTarget && !st.pre then
      let r := GCh node ctx st false
      (r.1.getD "void 0", r.2)
    else if s.tag == "slot" then
      GSlot node ctx st
    else
      let r :=
        if optTruthy s.component then
          GComp (s.component.getD "") node ctx st
        else
          let dr : Option String × CodegenState :=
            if !s.plain || (s.pre && maybeComponent st s) then
              let d := GData node ctx st
              (some d.1, d.2)
            else (none, st)
          let cr : Option String × CodegenState :=
            if s.inlineTemplate then (none, dr.2)
            else GCh node ctx dr.2 true
          let code := "_c('" ++ s.tag ++ "'" ++
            (match dr.1 with | some d => "," ++ d | none => "") ++
            (match cr.1 with | some c => "," ++ c | none => "") ++ ")"
          (code, cr.2)
      (st.options.transforms.foldl (fun c f => f s c) r.1, r.2)

/-- The body of genElement over a text or comment node (unreachable through
genNode, which routes those to genText/genComment first) falls back to
genText; over an element it folds the parent's raw-markup flag into the
element (`el.pre = el.pre || el.parent.pre`) and dispatches. -/
def genElementBody (GS GO GF GI GSlot GData : GenFn) (GCh : GenChildrenFn)
    (GComp : GenComponentFn) : GenFn := fun node ctx st =>
  match node with
  | .el s0 ch ifs sl =>
    genElementDispatch GS GO GF GI GSlot GData GCh GComp
      { s0 with pre := s0.pre || parentPre ctx } ch ifs sl ctx st
  | other => (genText other, st)

/-- The body of genStatic: compile the node (with its guard set) as an
independent program body under the node's raw-markup flag, append that body
to the state's static program list, restore the flag, and return a
reference to the just-appended entry by its index, with the clone flag when
the node sits inside an iteration. -/
def genStaticBody (GE : GenFn) : GenFn := fun node ctx st =>
  let s := node.scalars
  let node' := setStaticProcessed node
  let originalPreState := st.pre
  let stIn := if s.pre then { st with pre := s.pre } else st
  let r := GE node' ctx stIn
  let idx := r.2.staticRenderFns.length
  let st2 := { r.2 with
    staticRenderFns :=
      r.2.staticRenderFns ++ ["with(this)\x7breturn " ++ r.1 ++ "\x7d"],
    pre := originalPreState }
  ("_m(" ++ toString idx ++ (if s.staticInFor then ",true" else "") ++ ")", st2)

/-- The body of genOnce: a conditional node defers to genIf (the once flag
stays set); inside an iteration, the key of the nearest iterating ancestor
is required — a falsy key yields one diagnostic and the ordinary
compilation, otherwise the compiled node is wrapped in the memoization
marker with a fresh sequential id and that key; otherwise the node behaves
like a static one. -/
def genOnceBody (GE GI GS : GenFn) : GenFn := fun node ctx st =>
  let s := node.scalars
  let node' := setOnceProcessed node
  if optTruthy s.ifExp && !s.ifProcessed then
    GI node' ctx st
  else if s.staticInFor then
    let keyOpt := (ctx.find? fun p => truthyFor p).bind ElScalars.key
    if !optTruthy keyOpt then
      let st' := st.warn "v-once can only be used inside v-for that is keyed. "
      GE node' ctx st'
    else
      let r := GE node' ctx st
      ("_o(" ++ r.1 ++ "," ++ toString r.2.onceId ++ "," ++ keyOpt.getD "" ++ ")",
        { r.2 with onceId := r.2.onceId + 1 })
  else
    GS node' ctx st

/-- The body of genIf: set the guard against recursion and fold the
element's ordered conditional branch list (whose head block is the element
itself) through genIfConditions, compiling each branch through the ternary
branch compiler. -/
def genIfBody (GT : GenFn) : GenFn := fun node ctx st =>
  let node' := setIfProcessed node
  genIfConditions (fun b stt => GT b ctx stt) (fullIfConditions node') st

/-- The body of genTernaryExp: a conditional branch carrying the once flag
compiles through the run-once path, any other through genElement (so `v-if`
with `v-once` generates `(a)?_m(0):_m(1)`-style code). -/
def genTernaryExpBody (GO GE : GenFn) : GenFn := fun node ctx st =>
  if node.scalars.once then GO node ctx st
  else GE node ctx st

/-- The body of genFor: diagnose (as a tip) a component-like iterated tag
other than slot/template lacking an explicit key, then emit the
higher-order iteration call whose closure is parameterized by the alias and
up to two iterators and whose body recursively compiles the same node with
the guard set. -/
def genForBody (GE : GenFn) : GenFn := fun node ctx st =>
  let s := node.scalars
  let exp := s.forExp.getD ""
  let aliasStr := s.aliasExp.getD "undefined"
  let iterator1 := if optTruthy s.iterator1 then "," ++ s.iterator1.getD "" else ""
  let iterator2 := if optTruthy s.iterator2 then "," ++ s.iterator2.getD "" else ""
  let st' :=
    if maybeComponent st s && s.tag != "slot" && s.tag != "template" &&
        !optTruthy s.key then
      st.warn ("<" ++ s.tag ++ " v-for=\"" ++ aliasStr ++ " in " ++ exp ++
        "\">: component lists rendered with v-for should have explicit keys. " ++
        "See https://vuejs.org/guide/list.html#key for more info.") true
    else st
  let node' := setForProcessed node
  let r := GE node' ctx st'
  ("_l((" ++ exp ++ ")," ++ "function(" ++ aliasStr ++ iterator1 ++ iterator2 ++
    ")\x7breturn " ++ r.1 ++ "\x7d)", r.2)

/-- The body of genData: assemble the element data object in the source's
fixed field order — directives (which may mutate the element first), key,
ref (+ in-iteration flag), raw-markup flag, original tag name for dynamic
components, platform data hooks, literal attributes, DOM properties, event
handlers (regular then native), non-scoped slot target, scoped slots, the
two-way component binding, and the inline-template sub-program — then strip
the trailing comma and apply the bind directive's object-spread wrap when
recorded. (`wrapListeners` is installed only by the event directive module,
which is not among the provided sources.) -/
def genDataBody (GSS : GenFn) (GIT : GenInlineFn) : GenFn := fun node ctx st =>
  let dirsR := genDirectives node.scalars
  let s := dirsR.2
  let ssR : Option String × CodegenState :=
    match node with
    | .el _ _ _ [] => (none, st)
    | .el _ _ _ _ =>
      let r := GSS node ctx st
      (some r.1, r.2)
    | _ => (none, st)
  let itR : Option String × CodegenState :=
    if s.inlineTemplate then GIT node ctx ssR.2
    else (none, ssR.2)
  let d := "\x7b" ++
    (match dirsR.1 with | some ds => ds ++ "," | none => "") ++
    (if optTruthy s.key then "key:" ++ s.key.getD "" ++ "," else "") ++
    (if optTruthy s.ref then "ref:" ++ s.ref.getD "" ++ "," else "") ++
    (if s.refInFor then "refInFor:true," else "") ++
    (if s.pre then "pre:true," else "") ++
    (if optTruthy s.component then "tag:\"" ++ s.tag ++ "\"," else "") ++
    String.join (st.options.dataGenFns.map fun f => f s) ++
    (if s.attrs.isEmpty then "" else "attrs:\x7b" ++ genProps s.attrs ++ "\x7d,") ++
    (if s.props.isEmpty then "" else "domProps:\x7b" ++ genProps s.props ++ "\x7d,") ++
    (if s.events.isEmpty then "" else genHandlers s.events false ++ ",") ++
    (if s.nativeEvents.isEmpty then "" else genHandlers s.nativeEvents true ++ ",") ++
    (if optTruthy s.slotTarget && !optTruthy s.slotScope then
      "slot:" ++ s.slotTarget.getD "" ++ "," else "") ++
    (match ssR.1 with | some ss => ss ++ "," | none => "") ++
    (match s.model with
     | some m => "model:\x7bvalue:" ++ m.1 ++ ",callback:" ++ m.2.1 ++
         ",expression:" ++ m.2.2 ++ "\x7d,"
     | none => "") ++
    (match itR.1 with | some it => it ++ "," | none => "")
  let d := (if d.endsWith "," then d.dropRight 1 else d) ++ "\x7d"
  let d := match s.wrapData with
    | some w => "_b(" ++ d ++ ",'" ++ s.tag ++ "'," ++ w.value ++ "," ++
        (if w.prop then "true" else "false") ++
        (if w.sync then ",true" else "") ++ ")"
    | none => d
  (d, itR.2)

/-- The body of genInlineTemplate: diagnose unless the element has exactly
one element child; when the single child is an element, run a full nested
compile of it through generate (which constructs its own fresh codegen
state) and embed the nested primary program and static program list as a
self-contained nested factory; the nested compile's diagnostics reach the
same sink. -/
def genInlineTemplateBody (GEN : GenerateFn) : GenInlineFn := fun node ctx st =>
  let ch := node.childNodes
  let ast? := ch.head?
  let st' :=
    if ch.length != 1 || !(match ast? with | some a => a.isElem | none => true) then
      st.warn "Inline-template components must have exactly one child element."
    else st
  match ast? with
  | some ast =>
    if ast.isElem then
      let g := GEN (some ast) (node.scalars :: ctx) st.options
      let text := "inlineTemplate:\x7brender:function()\x7b" ++ g.1 ++
        "\x7d,staticRenderFns:[" ++
        String.intercalate ","
          (g.2.1.map fun code => "function()\x7b" ++ code ++ "\x7d") ++
        "]\x7d"
      (some text, { st' with warnings := st'.warnings ++ g.2.2 })
    else (none, st')
  | none => (none, st')

/-- The body of generate: construct a fresh per-compile state from the
options, compile the root (a missing root compiles to a minimal
empty-container call), and return the primary program wrapped in the
with-scope body together with the state's static program list and the
diagnostics it collected. -/
def generateBody (GE : GenFn) : GenerateFn := fun ast? ctx options =>
  let st : CodegenState := { options := options }
  match ast? with
  | some ast =>
    let r := GE ast ctx st
    ("with(this)\x7breturn " ++ r.1 ++ "\x7d", r.2.staticRenderFns, r.2.warnings)
  | none =>
    ("with(this)\x7breturn _c(\"div\")\x7d", st.staticRenderFns, st.warnings)

/-- The body of genScopedSlots: compile each scoped-slot registration (in
insertion order) to a keyed factory and collect them in the `_u` resolver
call. -/
def genScopedSlotsBody (GSlot : GenSlotFn) : GenFn := fun node ctx st =>
  match node with
  | .el s _ _ sl =>
    let r := seqCompile
      (fun (p : String × ASTNode) stt => GSlot p.1 p.2 (s :: ctx) stt) sl st
    ("scopedSlots:_u([" ++ String.intercalate "," r.1 ++ "])", r.2)
  | _ => ("", st)

/-- The body of genScopedSlot: an iterated scoped slot first wraps itself
in the iteration closure; otherwise emit the keyed factory function over
the scope parameter, whose body is the slot's children (guarded by its own
conditional when a template) or the compiled element. -/
def genScopedSlotBody (GFS : GenSlotFn) (GCh : GenChildrenFn) (GE : GenFn) :
    GenSlotFn := fun key node ctx st =>
  let s := node.scalars
  if truthyFor s && !s.forProcessed then
    GFS key node ctx st
  else
    let inner : String × CodegenState :=
      if s.tag == "template" then
        if optTruthy s.ifExp then
          let r := GCh node ctx st false
          (s.ifExp.getD "" ++ "?" ++ r.1.getD "undefined" ++ ":undefined", r.2)
        else
          let r := GCh node ctx st false
          (r.1.getD "undefined", r.2)
      else GE node ctx st
    let scopeStr := match s.slotScope with
      | some sc => sc
      | none => "undefined"
    ("\x7bkey:" ++ key ++ ",fn:function(" ++ scopeStr ++ ")\x7breturn " ++
      inner.1 ++ "\x7d\x7d", inner.2)

/-- The body of genForScopedSlot: set the iteration guard and wrap the
scoped slot's factory in the higher-order iteration call. -/
def genForScopedSlotBody (GSlot : GenSlotFn) : GenSlotFn := fun key node ctx st =>
  let s := node.scalars
  let exp := s.forExp.getD ""
  let aliasStr := s.aliasExp.getD "undefined"
  let iterator1 := if optTruthy s.iterator1 then "," ++ s.iterator1.getD "" else ""
  let iterator2 := if optTruthy s.iterator2 then "," ++ s.iterator2.getD "" else ""
  let node' := setForProcessed node
  let r := GSlot key node' ctx st
  ("_l((" ++ exp ++ ")," ++ "function(" ++ aliasStr ++ iterator1 ++ iterator2 ++
    ")\x7breturn " ++ r.1 ++ "\x7d)", r.2)

/-- The body of genChildren: nothing for an empty child list; a single
iterated child that is not a transparent template or slot outlet
short-circuits to its own compilation with the simple-normalization hint
when component-like; otherwise the bracketed array of recursively compiled
children with the computed normalization level (computed only when the
caller asks, the `checkSkip` argument) appended when nonzero. -/
def genChildrenBody (GE : GenFn) (GN : GenFn) : GenChildrenFn :=
  fun node ctx st checkSkip =>
  match node with
  | .el s children _ _ =>
    match children with
    | [] => (none, st)
    | c :: rest =>
      let ctx' := s :: ctx
      if rest.isEmpty && truthyFor c.scalars && c.scalars.tag != "template" &&
          c.scalars.tag != "slot" then
        let normalizationType :=
          if maybeComponent st c.scalars then ",1" else ""
        let r := GE c ctx' st
        (some (r.1 ++ normalizationType), r.2)
      else
        let normalizationType :=
          if checkSkip then
            getNormalizationType (fun sc => maybeComponent st sc) children
          else 0
        let r := seqCompile (fun cn stt => GN cn ctx' stt) children st
        (some ("[" ++ String.intercalate "," r.1 ++ "]" ++
          (if normalizationType != 0 then "," ++ toString normalizationType
           else "")), r.2)
  | _ => (none, st)

/-- The body of genNode: elements through genElement, comments through
genComment, all other text through genText. -/
def genNodeBody (GE : GenFn) : GenFn := fun node ctx st =>
  match node with
  | .el _ _ _ _ => GE node ctx st
  | .txt t true => (genComment (.txt t true), st)
  | other => (genText other, st)

/-- The body of genSlot: the slot-render call with the slot name, optional
compiled fallback children, an optional camel-cased literal attribute
payload, and an optional forwarded v-bind expression (with null
placeholders preserving the argument positions). -/
def genSlotBody (GCh : GenChildrenFn) : GenFn := fun node ctx st =>
  let s := node.scalars
  let slotName := if optTruthy s.slotName then s.slotName.getD "" else "\"default\""
  let r := GCh node ctx st false
  let res := "_t(" ++ slotName ++
    (match r.1 with | some c => "," ++ c | none => "")
  let attrsStr : Option String :=
    if s.attrs.isEmpty then none
    else some ("\x7b" ++ String.intercalate ","
      (s.attrs.map fun a => camelize a.name ++ ":" ++ a.value) ++ "\x7d")
  let bindOpt : Option String :=
    match s.attrsMap.lookup "v-bind" with
    | some v => if v.isEmpty then none else some v
    | none => none
  let res := res ++
    (if (attrsStr.isSome || bindOpt.isSome) && r.1.isNone then ",null" else "")
  let res := res ++ (match attrsStr with | some a => "," ++ a | none => "")
  let res := res ++
    (match bindOpt with
     | some b => (if attrsStr.isSome then "" else ",null") ++ "," ++ b
     | none => "")
  (res ++ ")", r.2)

/-- The body of genComponent: the construction call over the resolved
dynamic tag expression, with the full data object and (unless an inline
template) the compiled children. -/
def genComponentBody (GCh : GenChildrenFn) (GData : GenFn) : GenComponentFn :=
  fun componentName node ctx st =>
  let s := node.scalars
  let cr : Option String × CodegenState :=
    if s.inlineTemplate then (none, st)
    else GCh node ctx st true
  let dr := GData node ctx cr.2
  ("_c(" ++ componentName ++ "," ++ dr.1 ++
    (match cr.1 with | some c => "," ++ c | none => "") ++ ")", dr.2)

mutual

/-- genElement at explicit fuel (see genElementBody). -/
def genElement : Nat → ASTNode → Ctx → CodegenState → String × CodegenState
  | 0, _, _, st => ("", st)
  | n + 1, node, ctx, st =>
    genElementBody (genStatic n) (genOnce n) (genFor n) (genIf n) (genSlot n)
      (genData n) (genChildren n) (genComponent n) node ctx st

/-- genStatic at explicit fuel (see genStaticBody). -/
def genStatic : Nat → ASTNode → Ctx → CodegenState → String × CodegenState
  | 0, _, _, st => ("", st)
  | n + 1, node, ctx, st => genStaticBody (genElement n) node ctx st

/-- genOnce at explicit fuel (see genOnceBody). -/
def genOnce : Nat → ASTNode → Ctx → CodegenState → String × CodegenState
  | 0, _, _, st => ("", st)
  | n + 1, node, ctx, st =>
    genOnceBody (genElement n) (genIf n) (genStatic n) node ctx st

/-- genIf at explicit fuel (see genIfBody). -/
def genIf : Nat → ASTNode → Ctx → CodegenState → String × CodegenState
  | 0, _, _, st => ("", st)
  | n + 1, node, ctx, st => genIfBody (genTernaryExp n) node ctx st

/-- genTernaryExp at explicit fuel (see genTernaryExpBody). -/
def genTernaryExp : Nat → ASTNode → Ctx → CodegenState → String × CodegenState
  | 0, _, _, st => ("", st)
  | n + 1, node, ctx, st =>
    genTernaryExpBody (genOnce n) (genElement n) node ctx st

/-- genFor at explicit fuel (see genForBody). -/
def genFor : Nat → ASTNode → Ctx → CodegenState → String × CodegenState
  | 0, _, _, st => ("", st)
  | n + 1, node, ctx, st => genForBody (genElement n) node ctx st

/-- genData at explicit fuel (see genDataBody). -/
def genData : Nat → ASTNode → Ctx → CodegenState → String × CodegenState
  | 0, _, _, st => ("", st)
  | n + 1, node, ctx, st =>
    genDataBody (genScopedSlots n) (genInlineTemplate n) node ctx st

/-- genInlineTemplate at explicit fuel (see genInlineTemplateBody). -/
def genInlineTemplate :
    Nat → ASTNode → Ctx → CodegenState → Option String × CodegenState
  | 0, _, _, st => (none, st)
  | n + 1, node, ctx, st => genInlineTemplateBody (generate n) node ctx st

/-- generate at explicit fuel (see generateBody). -/
def generate :
    Nat → Option ASTNode → Ctx → CodegenOptions →
    String × List String × List Warning
  | 0, _, _, _ => ("", [], [])
  | n + 1, ast?, ctx, options => generateBody (genElement n) ast? ctx options

/-- genScopedSlots at explicit fuel (see genScopedSlotsBody). -/
def genScopedSlots : Nat → ASTNode → Ctx → CodegenState → String × CodegenState
  | 0, _, _, st => ("", st)
  | n + 1, node, ctx, st => genScopedSlotsBody (genScopedSlot n) node ctx st

/-- genScopedSlot at explicit fuel (see genScopedSlotBody). -/
def genScopedSlot :
    Nat → String → ASTNode → Ctx → CodegenState → String × CodegenState
  | 0, _, _, _, st => ("", st)
  | n + 1, key, node, ctx, st =>
    genScopedSlotBody (genForScopedSlot n) (genChildren n) (genElement n)
      key node ctx st

/-- genForScopedSlot at explicit fuel (see genForScopedSlotBody). -/
def genForScopedSlot :
    Nat → String → ASTNode → Ctx → CodegenState → String × CodegenState
  | 0, _, _, _, st => ("", st)
  | n + 1, key, node, ctx, st =>
    genForScopedSlotBody (genScopedSlot n) key node ctx st

/-- genChildren at explicit fuel (see genChildrenBody). -/
def genChildren :
    Nat → ASTNode → Ctx → CodegenState → Bool → Option String × CodegenState
  | 0, _, _, st, _ => (none, st)
  | n + 1, node, ctx, st, checkSkip =>
    genChildrenBody (genElement n) (genNode n) node ctx st checkSkip

/-- genNode at explicit fuel (see genNodeBody). -/
def genNode : Nat → ASTNode → Ctx → CodegenState → String × CodegenState
  | 0, _, _, st => ("", st)
  | n + 1, node, ctx, st => genNodeBody (genElement n) node ctx st

/-- genSlot at explicit fuel (see genSlotBody). -/
def genSlot : Nat → ASTNode → Ctx → CodegenState → String × CodegenState
  | 0, _, _, st => ("", st)
  | n + 1, node, ctx, st => genSlotBody (genChildren n) node ctx st

/-- genComponent at explicit fuel (see genComponentBody). -/
def genComponent :
    Nat → String → ASTNode → Ctx → CodegenState → String × CodegenState
  | 0, _, _, _, st => ("", st)
  | n + 1, componentName, node, ctx, st =>
    genComponentBody (genChildren n) (genData n) componentName node ctx st

end

/-! ### The ternary chain of conditional compilation (claim C1) -/
/-- The right-associated ternary chain over guard/compiled-branch pairs with
an explicit unconditional tail, as the spec words it:
`(g1)?C(b1):(g2)?C(b2):...:T`. -/
def ternaryChain : List (String × String) → String → String
  | [], tail => tail
  | gc :: rest, tail => "(" ++ gc.1 ++ ")?" ++ gc.2 ++ ":" ++ ternaryChain rest tail

/-- The branch list of a conditional group, rendered for genIfConditions: the
guarded branches in order, then the optional unguarded default branch. -/
def condList (gbs : List (String × ASTNode)) (tl : Option ASTNode) :
    List (Option String × ASTNode) :=
  gbs.map (fun p => (some p.1, p.2)) ++
    (match tl with | some b => [(none, b)] | none => [])

/-! ### Concrete fixtures for witnesses -/
/-- Concrete compiler options for witnesses: a small reserved-tag set and no
platform modules. -/
def exOpts : CodegenOptions :=
  { isReservedTag := fun t =>
      t == "a" || t == "b" || t == "c" || t == "div" || t == "span" ||
      t == "li" || t == "p" || t == "pre" }

/-- A fresh codegen state over the witness options. -/
def exSt : CodegenState := { options := exOpts }

/-- `<c v-else/>`: a plain element carrying the else marker. -/
def elC : ASTNode := .el { tag := "c", elseFlag := true } [] [] []

/-- `<b v-else-if="y"/>`: a plain element carrying an else-if marker. -/
def elB : ASTNode := .el { tag := "b", elseifExp := some "y" } [] [] []

/-- `<a v-if="x"/>` with its conditional group holding the y- and
else-branches appended by the builder. -/
def elA : ASTNode := .el { tag := "a", ifExp := some "x" }
  [] [(some "y", elB), (none, elC)] []

/-! ### The run-once key requirement inside iterations (claim C3) -/
/-- The key the source's ancestor walk discovers: the key expression of the
nearest ancestor carrying an iteration binding, when there is one. -/
def nearestForKey (ctx : Ctx) : Option String :=
  (ctx.find? fun p => truthyFor p).bind ElScalars.key

/-- The once-flagged element of the C3 examples: `<span v-once/>` marked by
the optimizer as static-inside-iteration. -/
def onceEl : ASTNode := .el { tag := "span", once := true, staticInFor := true } [] [] []

/-- The nearest iterating ancestor of the C3 counterexample: an iteration
with no key. -/
def ctxNear : ElScalars := { tag := "li", forExp := some "list" }

/-- A farther iterating ancestor that does carry a key. -/
def ctxFar : ElScalars := { tag := "div", forExp := some "outer", key := some "k" }

/-! ### Children-array normalization (claim C4) -/
/-- The normalization level as the spec words it: 2 (deep flatten) if some
element child, or some branch of its conditional group, is structurally an
iteration/transparent-template/slot node; else 1 (shallow flatten) if some
element child or branch is component-like; else 0. -/
def normalizationSpec (mc : ElScalars → Bool) (children : List ASTNode) : Nat :=
  if children.any fun c => c.isElem && normFull c then 2
  else if children.any fun c => c.isElem && normSimple mc c then 1
  else 0

/-- A transparent-template child holding one span, for the C4 example. -/
def tmplChild : ASTNode :=
  .el { tag := "template" } [.el { tag := "span" } [] [] []] [] []

/-- `<li v-for="(item,i) in list">`, for the single-iterated-child case. -/
def liFor : ASTNode :=
  .el { tag := "li", forExp := some "list", aliasExp := some "item",
        iterator1 := some "i" } [] [] []

/-- The nested root of the C8 witness: a div holding one static-root span. -/
def inlineChild : ASTNode :=
  .el { tag := "div" } [.el { tag := "span", staticRoot := true } [] [] []] [] []

/-- The inline-template host of the C8 witness. -/
def hostEl : ASTNode :=
  .el { tag := "my-comp", inlineTemplate := true, plain := false }
    [inlineChild] [] []

/-- The static-root span of the C2 witness. -/
def stSpan : ASTNode := .el { tag := "span", staticRoot := true } [] [] []

/-! ### Text interpolation parsing (claim C5)

The source scans with the global regex `\x7b\x7b((?:.|\r?\n)+?)\x7d\x7d` (or,
for a custom delimiter pair, the cached escaped pair around `((?:.|\n)+?)`).
The character-level embedding below reproduces that regex's semantics: a
content unit is any character the dot matches (everything except a newline,
a carriage return and the two special line separators), a bare newline, or —
for the default pattern only — a carriage-return/newline pair; the
non-greedy quantifier stops at the first closing delimiter after at least
one unit; a failed start position advances by one character (the engine's
bump-along), giving the leftmost match. -/
/-- Consume one content unit of the interpolation regex. `crlf` tells
whether the pattern accepts a carriage-return/newline pair (the default
pattern does, a custom-delimiter pattern does not). -/
def consumeUnit (crlf : Bool) : List Char → Option (List Char × List Char)
  | '\r' :: '\n' :: rest => if crlf then some (['\r', '\n'], rest) else none
  | '\n' :: rest => some (['\n'], rest)
  | c :: rest =>
    if c = '\r' || c = Char.ofNat 0x2028 || c = Char.ofNat 0x2029 then none
    else some ([c], rest)
  | [] => none

/-- Non-greedy content scan: consume units one at a time, stopping at the
first position where the closing delimiter follows at least one unit.
Returns the inner content and the remainder after the closing delimiter. -/
def scanContent (crlf : Bool) (close : List Char) :
    Nat → List Char → Option (List Char × List Char)
  | 0, _ => none
  | fuel + 1, l =>
    match consumeUnit crlf l with
    | none => none
    | some (u, rest) =>
      if close.isPrefixOf rest then some (u, rest.drop close.length)
      else
        match scanContent crlf close fuel rest with
        | none => none
        | some p => some (u ++ p.1, p.2)

/-- Leftmost interpolation match: the text before the match, the inner
content, and the remainder after the closing delimiter; none when no match
exists anywhere in the input. -/
def findTagMatch (crlf : Bool) (openD close : List Char) :
    Nat → List Char → Option (List Char × List Char × List Char)
  | 0, _ => none
  | fuel + 1, l =>
    match l with
    | [] => none
    | c :: t =>
      if openD.isPrefixOf l then
        match scanContent crlf close (l.drop openD.length).length
          (l.drop openD.length) with
        | some (content, rest) => some ([], content, rest)
        | none =>
          (findTagMatch crlf openD close fuel t).map
            (fun p => (c :: p.1, p.2.1, p.2.2))
      else
        (findTagMatch crlf openD close fuel t).map
          (fun p => (c :: p.1, p.2.1, p.2.2))

/-- Drop leading whitespace from a character list (the leftward half of a
string trim). -/
def jsTrimLeft : List Char → List Char
  | [] => []
  | c :: rest => if c.isWhitespace then jsTrimLeft rest else c :: rest

/-- Whitespace trim on both ends, as JS `String.prototype.trim` behaves on
the ASCII whitespace appearing in templates. -/
def jsTrim (s : String) : String :=
  String.mk (List.reverse (jsTrimLeft (List.reverse (jsTrimLeft s.data))))

/-- parseFilters. Modelled from the spec: the filter-expression grammar is
an opaque sub-parser "treated as an opaque sub-parser producing call
expressions" that resolves pipe syntax into nested calls — `b | f` becomes
`f(b)` (the spec's example). Split on single pipes (a doubled pipe is the
boolean-or operator, not a filter), then wrap right-to-left. -/
def splitFilters : List Char → List (List Char)
  | [] => [[]]
  | '|' :: '|' :: rest =>
    match splitFilters rest with
    | seg :: segs => ('|' :: '|' :: seg) :: segs
    | [] => [['|', '|']]
  | '|' :: rest => [] :: splitFilters rest
  | c :: rest =>
    match splitFilters rest with
    | seg :: segs => (c :: seg) :: segs
    | [] => [[c]]

/-- parseFilters over a raw expression string (see `splitFilters`). -/
def parseFilters (exp : String) : String :=
  match splitFilters exp.data with
  | [] => jsTrim exp
  | e :: fs =>
    fs.foldl (fun acc f => jsTrim (String.mk f) ++ "(" ++ acc ++ ")")
      (jsTrim (String.mk e))

/-- The result of parseText: the concatenation expression and the parallel
raw token list. -/
structure TextParseResult where
  expression : String
  tokens : List RawToken
deriving Repr, DecidableEq

/-- The token-accumulation loop of parseText: each match contributes the
JSON-quoted preceding literal (when non-empty), the filter-parsed expression
as `_s(...)` with its binding marker, and recurses on the remainder; the
trailing literal (when non-empty) closes the lists. -/
def parseTextLoop (crlf : Bool) (openD close : List Char) :
    Nat → List Char → List String × List RawToken
  | 0, l =>
    if l.isEmpty then ([], [])
    else ([jsonStringify (String.mk l)], [RawToken.str (String.mk l)])
  | fuel + 1, l =>
    match findTagMatch crlf openD close l.length l with
    | none =>
      if l.isEmpty then ([], [])
      else ([jsonStringify (String.mk l)], [RawToken.str (String.mk l)])
    | some (pre, content, rest) =>
      let exp := parseFilters (jsTrim (String.mk content))
      let pres : List String × List RawToken :=
        if pre.isEmpty then ([], [])
        else ([jsonStringify (String.mk pre)], [RawToken.str (String.mk pre)])
      let r := parseTextLoop crlf openD close fuel rest
      (pres.1 ++ ["_s(" ++ exp ++ ")"] ++ r.1,
       pres.2 ++ [RawToken.binding exp] ++ r.2)

/-- parseText: nothing when the text holds no delimiter-enclosed span;
otherwise the `+`-joined concatenation expression over the alternating
segments together with the parallel raw token list. -/
def parseText (text : String) (delimiters : Option (String × String)) :
    Option TextParseResult :=
  let crlf := delimiters.isNone
  let openD := match delimiters with | some d => d.1.data | none => ['{', '{']
  let close := match delimiters with | some d => d.2.data | none => ['}', '}']
  match findTagMatch crlf openD close text.data.length text.data with
  | none => none
  | some _ =>
    let r := parseTextLoop crlf openD close text.data.length text.data
    some { expression := String.intercalate "+" r.1, tokens := r.2 }

/-- How a raw token reappears inside the concatenation expression: a literal
as its JSON-quoted string, a binding as the to-string call around its
expression. -/
def renderRawToken : RawToken → String
  | .str s => jsonStringify s
  | .binding e => "_s(" ++ e ++ ")"

/-! ### Tokenizer end-tag handling (claims C6 and C10)

html-parser.js keeps a stack of open (non-unary) start tags, each stored
with its original and lowercased name, plus `lastTag`, the name on top.
`parseEndTag` searches the stack top-down for the closest entry whose
lowercased name equals the lowercased end-tag name; JS's `pos` counts from
the bottom, so with the stack embedded head = top, source `pos` corresponds
to popping `idx + 1` entries when the match sits `idx` below the top, and
the no-name cleanup call (`pos = 0`) pops the whole stack. Events and
diagnostics are collected in order (innermost first); the source interleaves
each entry's warning with its end event, modelled here as two parallel
lists. -/
/-- A stack entry of the tokenizer: original tag name plus its lowercased
form used for matching. -/
structure StackEntry where
  tag : String
  lowerCasedTag : String
deriving Repr, DecidableEq

/-- An observable tokenizer event: a start callback with its unary
(self-closing) flag, or an end callback. -/
inductive TagEvent where
  | start (tagName : String) (unary : Bool)
  | end_ (tagName : String)
deriving Repr, DecidableEq

/-- Lowercasing as `String.prototype.toLowerCase` behaves on tag names. -/
def lowerCase (s : String) : String :=
  String.mk (s.data.map Char.toLower)

/-- What parseEndTag produces: the emitted events, the collected
diagnostics, and the updated stack and lastTag. -/
structure EndTagResult where
  events : List TagEvent
  warns : List String
  stack : List StackEntry
  lastTag : Option String
deriving Repr, DecidableEq

/-- parseEndTag: pop the stack down to the closest case-insensitive match
(everything, when called with no name for cleanup), emitting an end event
per popped entry, innermost first, and a missing-end-tag diagnostic for
every popped entry except a named call's final match; a named tag with no
match on the stack instead synthesizes events for "br" (self-closing start)
and "p" (start plus end) and otherwise does nothing. The new lastTag is the
tag of the new stack top (none once the stack empties, JS's falsy 0). -/
def parseEndTag (tagName : Option String) (stack : List StackEntry)
    (lastTag : Option String) : EndTagResult :=
  let popCount : Option Nat := match tagName with
    | some tn => (stack.findIdx?
        (fun e => e.lowerCasedTag == lowerCase tn)).map (· + 1)
    | none => some stack.length
  match popCount with
  | some k =>
    let popped := stack.take k
    let warned := if tagName.isNone then popped else popped.dropLast
    { events := popped.map (fun e => TagEvent.end_ e.tag),
      warns := warned.map
        (fun e => "tag <" ++ e.tag ++ "> has no matching end tag."),
      stack := stack.drop k,
      lastTag := ((stack.drop k).head?).map (fun e => e.tag) }
  | none =>
    match tagName with
    | none => { events := [], warns := [], stack := stack, lastTag := lastTag }
    | some tn =>
      if lowerCase tn = "br" then
        { events := [TagEvent.start tn true], warns := [],
          stack := stack, lastTag := lastTag }
      else if lowerCase tn = "p" then
        { events := [TagEvent.start tn false, TagEvent.end_ tn], warns := [],
          stack := stack, lastTag := lastTag }
      else
        { events := [], warns := [], stack := stack, lastTag := lastTag }

/-- The configuration parseHTML draws from its options: the expectHTML
flag and the three tag classifiers. -/
structure TokenizerCfg where
  expectHTML : Bool
  isUnaryTag : String → Bool
  canBeLeftOpenTag : String → Bool
  isNonPhrasingTag : String → Bool

/-- handleStartTag: under expectHTML, first auto-close an open "p" when the
new tag is non-phrasing, then auto-close a same-name left-open tag (the
second check reads the lastTag left by the first); the tag is unary when the
classifier or the slash says so; a non-unary tag is pushed and becomes
lastTag; finally the start event is emitted after any synthesized ends. -/
def handleStartTag (cfg : TokenizerCfg) (tagName : String)
    (unarySlash : Bool) (stack : List StackEntry) (lastTag : Option String) :
    EndTagResult :=
  let r1 : EndTagResult :=
    if cfg.expectHTML && (lastTag == some "p") && cfg.isNonPhrasingTag tagName
    then parseEndTag lastTag stack lastTag
    else { events := [], warns := [], stack := stack, lastTag := lastTag }
  let r2 : EndTagResult :=
    if cfg.expectHTML && cfg.canBeLeftOpenTag tagName
        && (r1.lastTag == some tagName) then
      let r := parseEndTag (some tagName) r1.stack r1.lastTag
      { events := r1.events ++ r.events, warns := r1.warns ++ r.warns,
        stack := r.stack, lastTag := r.lastTag }
    else r1
  let unary := cfg.isUnaryTag tagName || unarySlash
  { events := r2.events ++ [TagEvent.start tagName unary],
    warns := r2.warns,
    stack := if unary then r2.stack
             else { tag := tagName, lowerCasedTag := lowerCase tagName }
               :: r2.stack,
    lastTag := if unary then r2.lastTag else some tagName }

/-- A tag-level token of the input, as the parseHTML loop recognizes them:
a start tag (with its self-closing slash) or an end tag. -/
inductive TagTok where
  | startTok (tagName : String) (unarySlash : Bool)
  | endTok (tagName : String)
deriving Repr, DecidableEq

/-- One parseHTML loop iteration at the tag level: a start tag goes through
handleStartTag, an end tag through parseEndTag. -/
def stepTok (cfg : TokenizerCfg) (stack : List StackEntry)
    (lastTag : Option String) : TagTok → EndTagResult
  | .startTok n u => handleStartTag cfg n u stack lastTag
  | .endTok n => parseEndTag (some n) stack lastTag

/-- Run the parseHTML loop over a token list, concatenating events and
threading stack and lastTag. -/
def runToks (cfg : TokenizerCfg) :
    List TagTok → List StackEntry → Option String →
      List TagEvent × List StackEntry × Option String
  | [], stack, lastTag => ([], stack, lastTag)
  | t :: ts, stack, lastTag =>
    let r := stepTok cfg stack lastTag t
    let rest := runToks cfg ts r.stack r.lastTag
    (r.events ++ rest.1, rest.2)

/-- The whole tokenizer run: the loop from an empty stack followed by the
final no-name parseEndTag cleanup (html-parser.js line 217). -/
def tokenizeRun (cfg : TokenizerCfg) (toks : List TagTok) : List TagEvent :=
  let r := runToks cfg toks [] none
  r.1 ++ (parseEndTag none r.2.1 r.2.2).events

/-- Number of end events in an event list. -/
def countEnds (evts : List TagEvent) : Nat :=
  evts.countP (fun e => match e with | .end_ _ => true | _ => false)

/-- Number of start events whose unary flag is off. -/
def countNonUnaryStarts (evts : List TagEvent) : Nat :=
  evts.countP (fun e => match e with | .start _ u => !u | _ => false)

/-! ### Conditional-group chaining in the AST builder (claim C7)

`processIfConditions` runs when the builder meets an element carrying a
v-else / v-else-if marker: it looks backwards through the parent's current
children with `findPrevElement`, which pops every trailing non-element node
(warning about each popped node whose text is not the exact single-space
string) until it reaches an element, and then either appends the marked
element to that element's open conditional group or diagnoses the missing
v-if. The mutation of `parent.children` is modelled by returning the new
children list together with the diagnostics. -/
/-- The text of a non-element node (`children[i].text`). -/
def ASTNode.textOf : ASTNode → String
  | .el _ _ _ _ => ""
  | .interp _ _ t => t
  | .txt t _ => t

/-- The diagnostic findPrevElement attaches to one popped node: nothing for
the exact single-space text, else the ignored-text warning built from the
trimmed text. -/
def findPrevWarn (c : ASTNode) : List Warning :=
  if c.textOf = " " then []
  else [{ msg := "text \"" ++ jsTrim c.textOf
      ++ "\" between v-if and v-else(-if) will be ignored." }]

/-- The walk of findPrevElement, over the reversed children (last child
first): stop at the first element, keeping it and everything below;
otherwise drop the node, collect its diagnostic and continue. Returns the
element found (if any), the reversed remaining children, and the
diagnostics in emission order. -/
def findPrevElementGo : List ASTNode → Option ASTNode × List ASTNode × List Warning
  | [] => (none, [], [])
  | c :: rest =>
    if c.isElem then (some c, c :: rest, [])
    else
      let r := findPrevElementGo rest
      (r.1, r.2.1, findPrevWarn c ++ r.2.2)

/-- findPrevElement: scan the children from the end, popping non-element
nodes (with their diagnostics) until an element appears. -/
def findPrevElement (children : List ASTNode) :
    Option ASTNode × List ASTNode × List Warning :=
  let r := findPrevElementGo children.reverse
  (r.1, r.2.1.reverse, r.2.2)

/-- addIfCondition: push one branch (guard expression and block) onto an
element's conditional group. -/
def addIfCondition (el : ASTNode) (condition : Option String × ASTNode) :
    ASTNode :=
  match el with
  | .el s ch ifs sl => .el s ch (ifs ++ [condition]) sl
  | n => n

/-- The missing-v-if diagnostic of processIfConditions. -/
def processIfConditionsWarning (el : ASTNode) : Warning :=
  { msg := "v-"
      ++ (if optTruthy el.scalars.elseifExp then
            "else-if=\"" ++ el.scalars.elseifExp.getD "" ++ "\""
          else "else")
      ++ " used on element <" ++ el.scalars.tag
      ++ "> without corresponding v-if." }

/-- processIfConditions: find the previous element sibling; when it has a
truthy if expression, append the marked element to its conditional group
with the else-if expression as guard (the marked element itself is never
placed on the child list); otherwise diagnose. -/
def processIfConditions (el : ASTNode) (children : List ASTNode) :
    List ASTNode × List Warning :=
  let r := findPrevElement children
  match r.1 with
  | some prev =>
    if optTruthy prev.scalars.ifExp then
      (r.2.1.dropLast ++ [addIfCondition prev (el.scalars.elseifExp, el)],
       r.2.2)
    else
      (r.2.1, r.2.2 ++ [processIfConditionsWarning el])
  | none => (r.2.1, r.2.2 ++ [processIfConditionsWarning el])

/-- The diagnostics of a popped run, front-of-list first as
findPrevElementGo meets them. -/
def warnsOf : List ASTNode → List Warning
  | [] => []
  | c :: rest => findPrevWarn c ++ warnsOf rest

/-- The diagnostics of popping a trailing run of children: last child
first. -/
def popWarnings (tail : List ASTNode) : List Warning :=
  warnsOf tail.reverse

/-- The v-if carrier used in the C7 scenarios. -/
def prevIfEl : ASTNode :=
  ASTNode.el { tag := "div", ifExp := some "x" } [] [] []

/-- The v-else carrier used in the C7 scenarios. -/
def elseMarked : ASTNode :=
  ASTNode.el { tag := "span", elseFlag := true } [] [] []

/-! ### Compiler determinism (claim C9)

The only state shared between compiles in the source is (a) the parser's
module-level configurable variables (part_001 lines 36-42), every one of
which the parse() prologue overwrites from the options before any other
work (lines 65-75) — the rest of parse's state (`stack`, `root`,
`currentParent`, `inVPre`, `inPre`, `warned`) is function-local; (b) the
per-compile CodegenState, which generate constructs fresh from the options
(see `generateBody`); and (c) the diagnostic sink, which is written but
never read. The first is captured by `parsePrologue` below; for the third
we prove sink noninterference: every code generator's program text and
non-sink state components are independent of the warnings accumulated so
far, so two parse+generate runs of the same input produce byte-identical
primary text and element-wise identical static program lists. -/
/-- A platform compiler module, viewed through the three hooks parse
plucks from it. -/
structure CompilerModule where
  transformNode : Option (ElScalars → ElScalars) := none
  preTransformNode : Option (ElScalars → ElScalars) := none
  postTransformNode : Option (ElScalars → ElScalars) := none

/-- The options parse reads in its prologue. -/
structure ParseOptions where
  warn : Option (String → List Warning → List Warning) := none
  isPreTag : Option (String → Bool) := none
  mustUseProp : Option (String → Option String → String → Bool) := none
  getTagNamespace : Option (String → Option String) := none
  modules : List CompilerModule := []
  delimiters : Option (String × String) := none

/-- The module-level configurable variables of the parser. -/
structure ParseEnv where
  warn : String → List Warning → List Warning
  delimiters : Option (String × String)
  transforms : List (ElScalars → ElScalars)
  preTransforms : List (ElScalars → ElScalars)
  postTransforms : List (ElScalars → ElScalars)
  platformIsPreTag : String → Bool
  platformMustUseProp : String → Option String → String → Bool
  platformGetTagNamespace : String → Option String

/-- The default diagnostic function (helpers baseWarn), as an append to the
modelled sink. -/
def baseWarn : String → List Warning → List Warning :=
  fun msg ws => ws ++ [{ msg := msg }]

/-- pluckModuleFunction: the defined hooks of the given kind, in module
order. -/
def pluckModuleFunction {τ : Type}
    (modules : List CompilerModule) (f : CompilerModule → Option τ) :
    List τ :=
  modules.filterMap f

/-- The parse() entry prologue: overwrite every module-level configurable
variable from the options (falsy options fall back to baseWarn / the
constantly-false or constantly-none classifiers, JS `no`). -/
def parsePrologue (options : ParseOptions) (env : ParseEnv) : ParseEnv :=
  { env with
    warn := options.warn.getD baseWarn,
    platformIsPreTag := options.isPreTag.getD (fun _ => false),
    platformMustUseProp := options.mustUseProp.getD (fun _ _ _ => false),
    platformGetTagNamespace := options.getTagNamespace.getD (fun _ => none),
    transforms := pluckModuleFunction options.modules
      CompilerModule.transformNode,
    preTransforms := pluckModuleFunction options.modules
      CompilerModule.preTransformNode,
    postTransforms := pluckModuleFunction options.modules
      CompilerModule.postTransformNode,
    delimiters := options.delimiters }

/-- Sink noninterference for a node generator: starting from any warnings
content, the program text and the non-sink state components are those of
the reference run. -/
def sinkIndepGen (f : GenFn) : Prop :=
  ∀ node ctx st w, ∃ w2,
    f node ctx { st with warnings := w }
      = ((f node ctx st).1, { (f node ctx st).2 with warnings := w2 })

/-- Sink noninterference, genChildren shape. -/
def sinkIndepChildren (f : GenChildrenFn) : Prop :=
  ∀ node ctx st b w, ∃ w2,
    f node ctx { st with warnings := w } b
      = ((f node ctx st b).1, { (f node ctx st b).2 with warnings := w2 })

/-- Sink noninterference, keyed scoped-slot shape. -/
def sinkIndepSlot (f : GenSlotFn) : Prop :=
  ∀ k node ctx st w, ∃ w2,
    f k node ctx { st with warnings := w }
      = ((f k node ctx st).1, { (f k node ctx st).2 with warnings := w2 })

/-- Sink noninterference, genInlineTemplate shape. -/
def sinkIndepInline (f : GenInlineFn) : Prop :=
  ∀ node ctx st w, ∃ w2,
    f node ctx { st with warnings := w }
      = ((f node ctx st).1, { (f node ctx st).2 with warnings := w2 })

/-- Sink noninterference, genComponent shape. -/
def sinkIndepComp (f : GenComponentFn) : Prop :=
  ∀ nm node ctx st w, ∃ w2,
    f nm node ctx { st with warnings := w }
      = ((f nm node ctx st).1, { (f nm node ctx st).2 with warnings := w2 })

/-- genIfConditions on a well-formed branch list (every guard non-empty, at
most one unguarded branch, and only in last position) produces exactly the
right-associated ternary chain over the sequentially compiled branches, with
the compiled default branch as tail when present and the empty-node marker
call when not. -/
theorem genIfConditions_eq_chain
    (gen : ASTNode → CodegenState → String × CodegenState)
    (gbs : List (String × ASTNode)) (tl : Option ASTNode) (st : CodegenState)
    (hg : (gbs.all fun p => !p.1.isEmpty) = true) :
    genIfConditions gen (condList gbs tl) st =
      (let r := seqCompile gen (gbs.map Prod.snd) st
       let tr : String × CodegenState :=
         match tl with | some b => gen b r.2 | none => ("_e()", r.2)
       (ternaryChain (List.zip (gbs.map Prod.fst) r.1) tr.1, tr.2)) := by
  induction gbs generalizing st with
  | nil =>
    cases tl with
    | none => rfl
    | some b => rfl
  | cons gb rest ih =>
    simp only [List.all_cons, Bool.and_eq_true] at hg
    have hne : optTruthy (some gb.1) = true := by
      simpa [optTruthy] using hg.1
    have ihx := ih (gen gb.2 st).2 hg.2
    simp only [condList, List.map_cons, List.cons_append] at ihx ⊢
    simp only [genIfConditions, hne, if_true, seqCompile, List.zip_cons_cons,
      ternaryChain, Option.getD]
    rw [ihx]
    rfl

/-- C1. For every element whose conditional group is the ordered branch list
`[(g1,b1),...,(gn,bn)]` (head block the element itself with its parse-time
guard, as the source stores it) and whose if-guard is not yet processed,
genIf returns the right-associated ternary chain `(g1)?C(b1):...:T` over the
sequentially compiled branches, where each `C(bi)` is genTernaryExp — the
once path when the branch carries the once flag, genElement otherwise — the
tail `T` is `C(bn)` when the last branch has no guard expression, and the
empty-node marker call `_e()` when every branch has a guard. -/
theorem C1_genIf_ternary_chain
    (n : Nat) (ctx : Ctx) (st : CodegenState)
    (s : ElScalars) (ch : List ASTNode)
    (ifs : List (Option String × ASTNode)) (sl : List (String × ASTNode))
    (gbs : List (String × ASTNode)) (tl : Option ASTNode)
    (hIf : optTruthy s.ifExp = true)
    (_hProc : s.ifProcessed = false)
    (hifs : ifs = condList gbs tl)
    (hg : (gbs.all fun p => !p.1.isEmpty) = true) :
    genIf (n + 1) (ASTNode.el s ch ifs sl) ctx st =
      (let el' : ASTNode := ASTNode.el { s with ifProcessed := true } ch ifs sl
       let branches := (s.ifExp.getD "", el') :: gbs
       let r := seqCompile (fun b stt => genTernaryExp n b ctx stt)
         (branches.map Prod.snd) st
       let tr : String × CodegenState :=
         match tl with
         | some b => genTernaryExp n b ctx r.2
         | none => ("_e()", r.2)
       (ternaryChain (List.zip (branches.map Prod.fst) r.1) tr.1, tr.2)) := by
  have hfull :
      fullIfConditions (setIfProcessed (ASTNode.el s ch ifs sl)) =
        condList ((s.ifExp.getD "",
          ASTNode.el { s with ifProcessed := true } ch ifs sl) :: gbs) tl := by
    cases h : s.ifExp with
    | none => rw [h] at hIf; simp [optTruthy] at hIf
    | some g =>
      simp only [setIfProcessed, fullIfConditions, condList, List.map_cons,
        List.cons_append, List.singleton_append, hifs, h, optTruthy,
        Option.getD, Option.isSome]
      rw [h] at hIf
      simp only [optTruthy] at hIf
      simp [hIf]
  have hgall : (((s.ifExp.getD "",
      ASTNode.el { s with ifProcessed := true } ch ifs sl) :: gbs).all
        fun p => !p.1.isEmpty) = true := by
    simp only [List.all_cons, Bool.and_eq_true]
    refine ⟨?_, hg⟩
    cases h : s.ifExp with
    | none => rw [h] at hIf; simp [optTruthy] at hIf
    | some g =>
      rw [h] at hIf
      simpa [optTruthy] using hIf
  have := genIfConditions_eq_chain (fun b stt => genTernaryExp n b ctx stt)
    ((s.ifExp.getD "", ASTNode.el { s with ifProcessed := true } ch ifs sl) :: gbs)
    tl st hgall
  show genIfConditions _ (fullIfConditions (setIfProcessed (ASTNode.el s ch ifs sl))) st = _
  rw [hfull, this]
  cases tl <;> rfl

/-- Witness for C1: the spec's example — `<a v-if="x"/><b v-else-if="y"/>`
`<c v-else/>` compiles to `(x)?A:(y)?B:C` with `A`,`B`,`C` the compiled
forms `_c('a')`, `_c('b')`, `_c('c')`. -/
theorem C1_witness :
    genIf 10 elA [] exSt = ("(x)?_c('a'):(y)?_c('b'):_c('c')", exSt) :=
  (C1_genIf_ternary_chain 9 [] exSt { tag := "a", ifExp := some "x" } []
    [(some "y", elB), (none, elC)] [] [("y", elB)] (some elC)
    rfl rfl rfl rfl).trans rfl

/-- C3, amended. For an element flagged once, not (unprocessed) conditional,
sitting inside an iteration: the walk stops at the *nearest* ancestor that
carries an iteration binding; when that ancestor's key is falsy (or no such
ancestor exists) genOnce emits exactly one diagnostic and returns the
ordinary compilation of the node (guard set), even if a farther iterating
ancestor does carry a key; otherwise it returns `_o(<compiled>,<id>,<key>)`
where `<id>` is the state's run-once counter after compiling the node (the
counter then increases by one) and `<key>` is that nearest ancestor's key. -/
theorem C3_genOnce_in_for_amended
    (n : Nat) (ctx : Ctx) (st : CodegenState) (node : ASTNode)
    (hNotCond : (optTruthy node.scalars.ifExp && !node.scalars.ifProcessed) = false)
    (hInFor : node.scalars.staticInFor = true) :
    (optTruthy (nearestForKey ctx) = false →
      genOnce (n + 1) node ctx st =
        genElement n (setOnceProcessed node) ctx
          (st.warn "v-once can only be used inside v-for that is keyed. ")) ∧
    (∀ k, nearestForKey ctx = some k → k.isEmpty = false →
      genOnce (n + 1) node ctx st =
        (let r := genElement n (setOnceProcessed node) ctx st
         ("_o(" ++ r.1 ++ "," ++ toString r.2.onceId ++ "," ++ k ++ ")",
          { r.2 with onceId := r.2.onceId + 1 }))) := by
  constructor
  · intro hkey
    show (if (optTruthy node.scalars.ifExp && !node.scalars.ifProcessed) = true
      then _ else _) = _
    rw [if_neg (by simp [hNotCond])]
    show (if node.scalars.staticInFor = true then _ else _) = _
    rw [if_pos hInFor]
    show (if (!optTruthy (nearestForKey ctx)) = true then _ else _) = _
    rw [if_pos (by simp [hkey])]
  · intro k hk hkne
    show (if (optTruthy node.scalars.ifExp && !node.scalars.ifProcessed) = true
      then _ else _) = _
    rw [if_neg (by simp [hNotCond])]
    show (if node.scalars.staticInFor = true then _ else _) = _
    rw [if_pos hInFor]
    show (if (!optTruthy (nearestForKey ctx)) = true then _ else _) = _
    rw [if_neg (by simp [nearestForKey] at hk ⊢; simp [hk, optTruthy, hkne])]
    simp [nearestForKey] at hk
    simp [hk, Option.getD]

/-- Counterexample to C3 as frozen. The claim ties the diagnostic-and-
fallback path to "no ancestor carrying an iteration binding has a key
expression"; here a farther iterating ancestor does have a key (so the
claim prescribes the memoized `_o(...)` result), yet the code stops its walk
at the nearest iterating ancestor, finds no key there, emits the diagnostic
and falls back to the ordinary compilation `_c('span')`. -/
theorem C3_counterexample :
    ([ctxNear, ctxFar].any fun p => truthyFor p && optTruthy p.key) = true ∧
    (genOnce 10 onceEl [ctxNear, ctxFar] exSt).1 = "_c('span')" ∧
    (genOnce 10 onceEl [ctxNear, ctxFar] exSt).2.warnings =
      [⟨"v-once can only be used inside v-for that is keyed. ", false⟩] :=
  ⟨rfl, rfl, rfl⟩

/-- Witness for the amended C3: with the nearest iterating ancestor keyed,
the same node compiles to `_o(_c('span'),0,i)`; with it unkeyed, one
diagnostic and the ordinary compilation. -/
theorem C3_witness :
    genOnce 10 onceEl [{ tag := "li", forExp := some "list", key := some "i" }] exSt =
      ("_o(_c('span'),0,i)", { exSt with onceId := 1 }) ∧
    genOnce 10 onceEl [ctxNear] exSt =
      ("_c('span')",
        exSt.warn "v-once can only be used inside v-for that is keyed. ") :=
  ⟨((C3_genOnce_in_for_amended 9
      [{ tag := "li", forExp := some "list", key := some "i" }] exSt onceEl
      rfl rfl).2 "i" rfl rfl).trans rfl,
   ((C3_genOnce_in_for_amended 9 [ctxNear] exSt onceEl rfl rfl).1 rfl).trans rfl⟩

/-- The source's accumulator loop computes the spec's normalization level:
the first full-normalization child short-circuits to 2, a component-like
child raises the floor to 1. -/
theorem getNormalizationTypeGo_eq_spec (mc : ElScalars → Bool)
    (l : List ASTNode) (res : Nat) (hres : res = 0 ∨ res = 1) :
    getNormalizationTypeGo mc l res =
      (if l.any (fun c => c.isElem && normFull c) then 2
       else if l.any (fun c => c.isElem && normSimple mc c) then 1
       else res) := by
  induction l generalizing res with
  | nil => simp [getNormalizationTypeGo]
  | cons c rest ih =>
    cases he : c.isElem with
    | false =>
      simp only [getNormalizationTypeGo, he, Bool.not_false, if_true,
        List.any_cons, Bool.false_and, Bool.false_or]
      exact ih res hres
    | true =>
      cases hf : normFull c with
      | true =>
        simp [getNormalizationTypeGo, he, hf]
      | false =>
        cases hs : normSimple mc c with
        | true =>
          simp only [getNormalizationTypeGo, he, hf, hs, Bool.not_true,
            List.any_cons, Bool.true_and, Bool.false_or, if_false,
            Bool.false_eq_true, Bool.true_eq_false]
          rw [ih 1 (Or.inr rfl)]
          rcases hres with h0 | h1 <;> subst_vars <;>
            by_cases h : rest.any (fun c => c.isElem && normFull c) = true <;>
              simp [h]
        | false =>
          simp only [getNormalizationTypeGo, he, hf, hs, Bool.not_true,
            List.any_cons, Bool.true_and, Bool.false_or, if_false,
            Bool.false_eq_true, Bool.true_eq_false]
          exact ih res hres

/-- The source's getNormalizationType equals the spec's level. -/
theorem getNormalizationType_eq_spec (mc : ElScalars → Bool)
    (children : List ASTNode) :
    getNormalizationType mc children = normalizationSpec mc children := by
  have := getNormalizationTypeGo_eq_spec mc children 0 (Or.inl rfl)
  simpa [getNormalizationType, normalizationSpec] using this

/-- C4, amended. For an element with non-empty children compiled with the
normalization check enabled (the `checkSkip` argument, as ordinary element
and component compilation passes it): a single child carrying a (truthy)
iteration binding whose tag is neither template nor slot short-circuits to
that child's own compilation plus the `,1` hint exactly when it is
component-like; any other children list compiles to the bracketed array of
recursively compiled children followed by `,L` when the normalization level
`L` of `normalizationSpec` is nonzero. Without the check (slot fallback
children, transparent-template passthrough) no level suffix is emitted. -/
theorem C4_genChildren_normalization
    (n : Nat) (ctx : Ctx) (st : CodegenState)
    (s : ElScalars) (ifs : List (Option String × ASTNode))
    (sl : List (String × ASTNode)) (c : ASTNode) (cs : List ASTNode) :
    ((cs.isEmpty && truthyFor c.scalars && c.scalars.tag != "template" &&
        c.scalars.tag != "slot") = true →
      genChildren (n + 1) (ASTNode.el s (c :: cs) ifs sl) ctx st true =
        (let r := genElement n c (s :: ctx) st
         (some (r.1 ++ (if maybeComponent st c.scalars then ",1" else "")), r.2))) ∧
    ((cs.isEmpty && truthyFor c.scalars && c.scalars.tag != "template" &&
        c.scalars.tag != "slot") = false →
      genChildren (n + 1) (ASTNode.el s (c :: cs) ifs sl) ctx st true =
        (let r := seqCompile (fun cn stt => genNode n cn (s :: ctx) stt) (c :: cs) st
         let L := normalizationSpec (fun sc => maybeComponent st sc) (c :: cs)
         (some ("[" ++ String.intercalate "," r.1 ++ "]" ++
            (if L != 0 then "," ++ toString L else "")), r.2))) := by
  constructor
  · intro hsf
    show (if (cs.isEmpty && truthyFor c.scalars && c.scalars.tag != "template" &&
        c.scalars.tag != "slot") = true then _ else _) = _
    rw [if_pos hsf]
  · intro hsf
    show (if (cs.isEmpty && truthyFor c.scalars && c.scalars.tag != "template" &&
        c.scalars.tag != "slot") = true then _ else _) = _
    rw [if_neg (by simp [hsf])]
    rw [show getNormalizationType (fun sc => maybeComponent st sc) (c :: cs) =
      normalizationSpec (fun sc => maybeComponent st sc) (c :: cs) from
      getNormalizationType_eq_spec _ _]
    simp only [if_true]

/-- Counterexample to C4 as frozen. The claim promises the `,L` suffix
whenever the normalization level is nonzero, but genChildren computes the
level only when its caller enables the check: on a children list containing
a transparent template (level 2) invoked without the check (as the slot
fallback path and the template passthrough invoke it), no suffix is
emitted. -/
theorem C4_counterexample :
    normalizationSpec (fun sc => maybeComponent exSt sc) [tmplChild] = 2 ∧
    (genChildren 10 (ASTNode.el { tag := "div" } [tmplChild] [] []) [] exSt
      false).1 = some "[[_c('span')]]" :=
  ⟨rfl, rfl⟩

/-- Witness for the amended C4: with the check enabled the template child
yields the deep-flatten suffix `,2`; a single iterated non-component child
short-circuits to its own iteration text without a hint. -/
theorem C4_witness :
    genChildren 10 (ASTNode.el { tag := "div" } [tmplChild] [] []) [] exSt true =
      (some "[[_c('span')]],2", exSt) ∧
    genChildren 10 (ASTNode.el { tag := "div" } [liFor] [] []) [] exSt true =
      (some "_l((list),function(item,i)\x7breturn _c('li')\x7d)", exSt) :=
  ⟨((C4_genChildren_normalization 9 [] exSt { tag := "div" } [] [] tmplChild []).2
      rfl).trans rfl,
   ((C4_genChildren_normalization 9 [] exSt { tag := "div" } [] [] liFor []).1
      rfl).trans rfl⟩

/-! ### Inline-template state isolation (claim C8) -/
/-- C8. For an element whose single child is an element, genInlineTemplate
runs the nested compile through generate — which constructs a fresh codegen
state — so the nested static-program list appears only inside the emitted
`inlineTemplate:{render:...,staticRenderFns:[...]}` text, while the
enclosing state's static-program list and run-once counter are unchanged
(no nested entry is appended to the enclosing list); the nested compile's
diagnostics are forwarded to the shared sink. -/
theorem C8_inline_template_isolation
    (n : Nat) (ctx : Ctx) (st : CodegenState)
    (s : ElScalars) (ifs : List (Option String × ASTNode))
    (sl : List (String × ASTNode)) (c : ASTNode)
    (hel : c.isElem = true) :
    (genInlineTemplate (n + 1) (ASTNode.el s [c] ifs sl) ctx st).1 =
      some ("inlineTemplate:\x7brender:function()\x7b" ++
        (generate n (some c) (s :: ctx) st.options).1 ++
        "\x7d,staticRenderFns:[" ++
        String.intercalate ","
          ((generate n (some c) (s :: ctx) st.options).2.1.map
            fun code => "function()\x7b" ++ code ++ "\x7d") ++ "]\x7d") ∧
    (genInlineTemplate (n + 1) (ASTNode.el s [c] ifs sl) ctx st).2.staticRenderFns =
      st.staticRenderFns ∧
    (genInlineTemplate (n + 1) (ASTNode.el s [c] ifs sl) ctx st).2.onceId =
      st.onceId ∧
    (genInlineTemplate (n + 1) (ASTNode.el s [c] ifs sl) ctx st).2.warnings =
      st.warnings ++ (generate n (some c) (s :: ctx) st.options).2.2 := by
  cases c with
  | el cs cch cifs csl => exact ⟨rfl, rfl, rfl, rfl⟩
  | interp e t x => simp [ASTNode.isElem] at hel
  | txt t b => simp [ASTNode.isElem] at hel

set_option maxHeartbeats 1000000 in
/-- Witness for C8: the nested compile hoists its static span into the
nested factory text, and the enclosing state keeps an empty static-program
list, a zero run-once counter and no diagnostics. -/
theorem C8_witness :
    (genInlineTemplate 10 hostEl [] exSt).1 =
      some ("inlineTemplate:\x7brender:function()\x7bwith(this)\x7breturn " ++
        "_c('div',[_m(0)])\x7d\x7d,staticRenderFns:[function()\x7bwith(this)" ++
        "\x7breturn _c('span')\x7d\x7d]\x7d") ∧
    (genInlineTemplate 10 hostEl [] exSt).2.staticRenderFns = [] ∧
    (genInlineTemplate 10 hostEl [] exSt).2.onceId = 0 ∧
    (genInlineTemplate 10 hostEl [] exSt).2.warnings = [] := by
  have h := C8_inline_template_isolation 9 []
    exSt { tag := "my-comp", inlineTemplate := true, plain := false }
    [] [] inlineChild rfl
  exact ⟨h.1.trans rfl, h.2.1.trans rfl, h.2.2.1.trans rfl, h.2.2.2.trans rfl⟩

/-! ### The static-program list only grows (towards claim C2) -/
/-- The diagnostic sink does not touch the static-program list. -/
theorem warn_staticRenderFns (st : CodegenState) (msg : String) (tip : Bool) :
    (st.warn msg tip).staticRenderFns = st.staticRenderFns := rfl

/-- seqCompile preserves static-list prefixes when its compiler does. -/
theorem seqCompile_mono {α : Type}
    (f : α → CodegenState → String × CodegenState)
    (hf : ∀ a st, st.staticRenderFns <+: (f a st).2.staticRenderFns)
    (l : List α) (st : CodegenState) :
    st.staticRenderFns <+: (seqCompile f l st).2.staticRenderFns := by
  induction l generalizing st with
  | nil => exact List.prefix_refl _
  | cons a rest ih => exact (hf a st).trans (ih (f a st).2)

/-- genIfConditions preserves static-list prefixes when its branch compiler
does. -/
theorem genIfConditions_mono
    (gen : ASTNode → CodegenState → String × CodegenState)
    (hgen : ∀ b st, st.staticRenderFns <+: (gen b st).2.staticRenderFns)
    (conds : List (Option String × ASTNode)) (st : CodegenState) :
    st.staticRenderFns <+: (genIfConditions gen conds st).2.staticRenderFns := by
  induction conds generalizing st with
  | nil => exact List.prefix_refl _
  | cons c rest ih =>
    show st.staticRenderFns <+:
      (if optTruthy c.1 = true then _ else gen c.2 st).2.staticRenderFns
    split
    · exact (hgen c.2 st).trans (ih (gen c.2 st).2)
    · exact hgen c.2 st

set_option maxHeartbeats 2000000 in
/-- genElementDispatch preserves static-list prefixes when its callees do. -/
theorem genElementDispatch_mono (GS GO GF GI GSlot GData : GenFn)
    (GCh : GenChildrenFn) (GComp : GenComponentFn)
    (hGS : ∀ node ctx st, st.staticRenderFns <+: (GS node ctx st).2.staticRenderFns)
    (hGO : ∀ node ctx st, st.staticRenderFns <+: (GO node ctx st).2.staticRenderFns)
    (hGF : ∀ node ctx st, st.staticRenderFns <+: (GF node ctx st).2.staticRenderFns)
    (hGI : ∀ node ctx st, st.staticRenderFns <+: (GI node ctx st).2.staticRenderFns)
    (hGSlot : ∀ node ctx st, st.staticRenderFns <+: (GSlot node ctx st).2.staticRenderFns)
    (hGData : ∀ node ctx st, st.staticRenderFns <+: (GData node ctx st).2.staticRenderFns)
    (hGCh : ∀ node ctx st b, st.staticRenderFns <+: (GCh node ctx st b).2.staticRenderFns)
    (hGComp : ∀ nm node ctx st, st.staticRenderFns <+: (GComp nm node ctx st).2.staticRenderFns)
    (s : ElScalars) (ch : List ASTNode) (ifs : List (Option String × ASTNode))
    (sl : List (String × ASTNode)) (ctx : Ctx) (st : CodegenState) :
    st.staticRenderFns <+:
      (genElementDispatch GS GO GF GI GSlot GData GCh GComp
        s ch ifs sl ctx st).2.staticRenderFns := by
  have hstate : (genElementDispatch GS GO GF GI GSlot GData GCh GComp
      s ch ifs sl ctx st).2 =
      (let node := ASTNode.el s ch ifs sl
       if s.staticRoot && !s.staticProcessed then (GS node ctx st).2
       else if s.once && !s.onceProcessed then (GO node ctx st).2
       else if truthyFor s && !s.forProcessed then (GF node ctx st).2
       else if optTruthy s.ifExp && !s.ifProcessed then (GI node ctx st).2
       else if s.tag == "template" && !optTruthy s.slotTarget && !st.pre then
         (GCh node ctx st false).2
       else if s.tag == "slot" then (GSlot node ctx st).2
       else if optTruthy s.component then
         (GComp (s.component.getD "") node ctx st).2
       else
         let st1 := if !s.plain || (s.pre && maybeComponent st s) then
           (GData node ctx st).2 else st
         if s.inlineTemplate then st1 else (GCh node ctx st1 true).2) := by
    unfold genElementDispatch
    dsimp only
    repeat' split
    all_goals rfl
  rw [hstate]
  dsimp only
  split
  · exact hGS _ _ _
  · split
    · exact hGO _ _ _
    · split
      · exact hGF _ _ _
      · split
        · exact hGI _ _ _
        · split
          · exact hGCh _ _ _ _
          · split
            · exact hGSlot _ _ _
            · split
              · exact hGComp _ _ _ _
              · split
                · split
                  · exact hGData _ _ _
                  · exact List.prefix_refl _
                · split
                  · exact (hGData _ _ _).trans (hGCh _ _ _ _)
                  · exact hGCh _ _ _ _

/-- genElementBody preserves static-list prefixes when its callees do. -/
theorem genElementBody_mono (GS GO GF GI GSlot GData : GenFn)
    (GCh : GenChildrenFn) (GComp : GenComponentFn)
    (hGS : ∀ node ctx st, st.staticRenderFns <+: (GS node ctx st).2.staticRenderFns)
    (hGO : ∀ node ctx st, st.staticRenderFns <+: (GO node ctx st).2.staticRenderFns)
    (hGF : ∀ node ctx st, st.staticRenderFns <+: (GF node ctx st).2.staticRenderFns)
    (hGI : ∀ node ctx st, st.staticRenderFns <+: (GI node ctx st).2.staticRenderFns)
    (hGSlot : ∀ node ctx st, st.staticRenderFns <+: (GSlot node ctx st).2.staticRenderFns)
    (hGData : ∀ node ctx st, st.staticRenderFns <+: (GData node ctx st).2.staticRenderFns)
    (hGCh : ∀ node ctx st b, st.staticRenderFns <+: (GCh node ctx st b).2.staticRenderFns)
    (hGComp : ∀ nm node ctx st, st.staticRenderFns <+: (GComp nm node ctx st).2.staticRenderFns)
    (node : ASTNode) (ctx : Ctx) (st : CodegenState) :
    st.staticRenderFns <+:
      (genElementBody GS GO GF GI GSlot GData GCh GComp node ctx st).2.staticRenderFns := by
  cases node with
  | interp e t x => exact List.prefix_refl _
  | txt t b => exact List.prefix_refl _
  | el s0 ch ifs sl =>
    exact genElementDispatch_mono GS GO GF GI GSlot GData GCh GComp
      hGS hGO hGF hGI hGSlot hGData hGCh hGComp _ ch ifs sl ctx st

/-- genStaticBody preserves static-list prefixes when genElement does. -/
theorem genStaticBody_mono (GE : GenFn)
    (hGE : ∀ node ctx st, st.staticRenderFns <+: (GE node ctx st).2.staticRenderFns)
    (node : ASTNode) (ctx : Ctx) (st : CodegenState) :
    st.staticRenderFns <+: (genStaticBody GE node ctx st).2.staticRenderFns := by
  have hGE' : ∀ node ctx (st st' : CodegenState),
      st'.staticRenderFns = st.staticRenderFns →
      st.staticRenderFns <+: (GE node ctx st').2.staticRenderFns :=
    fun node ctx st st' h => h ▸ hGE node ctx st'
  unfold genStaticBody
  dsimp only
  split
  · refine List.IsPrefix.trans ?_ (List.prefix_append _ _)
    exact hGE' _ _ _ _ rfl
  · refine List.IsPrefix.trans ?_ (List.prefix_append _ _)
    exact hGE' _ _ _ _ rfl

/-- genOnceBody preserves static-list prefixes when its callees do. -/
theorem genOnceBody_mono (GE GI GS : GenFn)
    (hGE : ∀ node ctx st, st.staticRenderFns <+: (GE node ctx st).2.staticRenderFns)
    (hGI : ∀ node ctx st, st.staticRenderFns <+: (GI node ctx st).2.staticRenderFns)
    (hGS : ∀ node ctx st, st.staticRenderFns <+: (GS node ctx st).2.staticRenderFns)
    (node : ASTNode) (ctx : Ctx) (st : CodegenState) :
    st.staticRenderFns <+: (genOnceBody GE GI GS node ctx st).2.staticRenderFns := by
  have hGE' : ∀ node ctx (st st' : CodegenState),
      st'.staticRenderFns = st.staticRenderFns →
      st.staticRenderFns <+: (GE node ctx st').2.staticRenderFns :=
    fun node ctx st st' h => h ▸ hGE node ctx st'
  unfold genOnceBody
  dsimp only
  split
  · exact hGI _ _ _
  · split
    · split
      · exact hGE' _ _ _ _ rfl
      · exact hGE _ _ _
    · exact hGS _ _ _

/-- genIfBody preserves static-list prefixes when the branch compiler does. -/
theorem genIfBody_mono (GT : GenFn)
    (hGT : ∀ node ctx st, st.staticRenderFns <+: (GT node ctx st).2.staticRenderFns)
    (node : ASTNode) (ctx : Ctx) (st : CodegenState) :
    st.staticRenderFns <+: (genIfBody GT node ctx st).2.staticRenderFns :=
  genIfConditions_mono _ (fun b stt => hGT b ctx stt) _ st

/-- genTernaryExpBody preserves static-list prefixes when its callees do. -/
theorem genTernaryExpBody_mono (GO GE : GenFn)
    (hGO : ∀ node ctx st, st.staticRenderFns <+: (GO node ctx st).2.staticRenderFns)
    (hGE : ∀ node ctx st, st.staticRenderFns <+: (GE node ctx st).2.staticRenderFns)
    (node : ASTNode) (ctx : Ctx) (st : CodegenState) :
    st.staticRenderFns <+: (genTernaryExpBody GO GE node ctx st).2.staticRenderFns := by
  unfold genTernaryExpBody
  split
  · exact hGO _ _ _
  · exact hGE _ _ _

/-- genForBody preserves static-list prefixes when genElement does. -/
theorem genForBody_mono (GE : GenFn)
    (hGE : ∀ node ctx st, st.staticRenderFns <+: (GE node ctx st).2.staticRenderFns)
    (node : ASTNode) (ctx : Ctx) (st : CodegenState) :
    st.staticRenderFns <+: (genForBody GE node ctx st).2.staticRenderFns := by
  have hGE' : ∀ node ctx (st st' : CodegenState),
      st'.staticRenderFns = st.staticRenderFns →
      st.staticRenderFns <+: (GE node ctx st').2.staticRenderFns :=
    fun node ctx st st' h => h ▸ hGE node ctx st'
  unfold genForBody
  dsimp only
  split
  · exact hGE' _ _ _ _ rfl
  · exact hGE' _ _ _ _ rfl

/-- The state genDataBody returns: the input threaded through the scoped
slots (when present) and then the inline-template compile (when flagged);
nothing else in the data object touches the state. -/
theorem genDataBody_state (GSS : GenFn) (GIT : GenInlineFn)
    (node : ASTNode) (ctx : Ctx) (st : CodegenState) :
    (genDataBody GSS GIT node ctx st).2 =
      (let ssSt :=
        match node with
        | .el _ _ _ [] => st
        | .el _ _ _ _ => (GSS node ctx st).2
        | _ => st
       if (genDirectives node.scalars).2.inlineTemplate then (GIT node ctx ssSt).2
       else ssSt) := by
  unfold genDataBody
  dsimp only
  cases node with
  | el s ch ifs sl =>
    cases sl with
    | nil => split <;> rfl
    | cons a l => split <;> rfl
  | interp e t x => split <;> rfl
  | txt t b => split <;> rfl

/-- genDataBody preserves static-list prefixes when its callees do. -/
theorem genDataBody_mono (GSS : GenFn) (GIT : GenInlineFn)
    (hGSS : ∀ node ctx st, st.staticRenderFns <+: (GSS node ctx st).2.staticRenderFns)
    (hGIT : ∀ node ctx st, st.staticRenderFns <+: (GIT node ctx st).2.staticRenderFns)
    (node : ASTNode) (ctx : Ctx) (st : CodegenState) :
    st.staticRenderFns <+: (genDataBody GSS GIT node ctx st).2.staticRenderFns := by
  rw [genDataBody_state]
  dsimp only
  split
  · split
    · exact hGIT _ _ _
    · exact (hGSS _ _ _).trans (hGIT _ _ _)
    · exact hGIT _ _ _
  · split
    · exact List.prefix_refl _
    · exact hGSS _ _ _
    · exact List.prefix_refl _

/-- genInlineTemplateBody leaves the static list untouched (prefix holds
trivially): the nested compile owns a fresh state. -/
theorem genInlineTemplateBody_mono (GEN : GenerateFn)
    (node : ASTNode) (ctx : Ctx) (st : CodegenState) :
    st.staticRenderFns <+:
      (genInlineTemplateBody GEN node ctx st).2.staticRenderFns := by
  unfold genInlineTemplateBody
  dsimp only
  split
  · split
    · split <;> exact List.prefix_refl _
    · split <;> exact List.prefix_refl _
  · split <;> exact List.prefix_refl _

/-- genScopedSlotsBody preserves static-list prefixes when the slot
compiler does. -/
theorem genScopedSlotsBody_mono (GSlot : GenSlotFn)
    (hGSlot : ∀ key node ctx st, st.staticRenderFns <+: (GSlot key node ctx st).2.staticRenderFns)
    (node : ASTNode) (ctx : Ctx) (st : CodegenState) :
    st.staticRenderFns <+: (genScopedSlotsBody GSlot node ctx st).2.staticRenderFns := by
  unfold genScopedSlotsBody
  dsimp only
  split
  · exact seqCompile_mono _ (fun (p : String × ASTNode) stt => hGSlot p.1 p.2 _ stt) _ st
  · exact List.prefix_refl _

/-- genScopedSlotBody preserves static-list prefixes when its callees do. -/
theorem genScopedSlotBody_mono (GFS : GenSlotFn) (GCh : GenChildrenFn) (GE : GenFn)
    (hGFS : ∀ key node ctx st, st.staticRenderFns <+: (GFS key node ctx st).2.staticRenderFns)
    (hGCh : ∀ node ctx st b, st.staticRenderFns <+: (GCh node ctx st b).2.staticRenderFns)
    (hGE : ∀ node ctx st, st.staticRenderFns <+: (GE node ctx st).2.staticRenderFns)
    (key : String) (node : ASTNode) (ctx : Ctx) (st : CodegenState) :
    st.staticRenderFns <+:
      (genScopedSlotBody GFS GCh GE key node ctx st).2.staticRenderFns := by
  have hstate : (genScopedSlotBody GFS GCh GE key node ctx st).2 =
      (if truthyFor node.scalars && !node.scalars.forProcessed then
        (GFS key node ctx st).2
       else if node.scalars.tag == "template" then (GCh node ctx st false).2
       else (GE node ctx st).2) := by
    unfold genScopedSlotBody
    dsimp only
    repeat' split
    all_goals rfl
  rw [hstate]
  split
  · exact hGFS _ _ _ _
  · split
    · exact hGCh _ _ _ _
    · exact hGE _ _ _

/-- genForScopedSlotBody preserves static-list prefixes when the slot
compiler does. -/
theorem genForScopedSlotBody_mono (GSlot : GenSlotFn)
    (hGSlot : ∀ key node ctx st, st.staticRenderFns <+: (GSlot key node ctx st).2.staticRenderFns)
    (key : String) (node : ASTNode) (ctx : Ctx) (st : CodegenState) :
    st.staticRenderFns <+:
      (genForScopedSlotBody GSlot key node ctx st).2.staticRenderFns :=
  hGSlot _ _ _ _

/-- genChildrenBody preserves static-list prefixes when its callees do. -/
theorem genChildrenBody_mono (GE GN : GenFn)
    (hGE : ∀ node ctx st, st.staticRenderFns <+: (GE node ctx st).2.staticRenderFns)
    (hGN : ∀ node ctx st, st.staticRenderFns <+: (GN node ctx st).2.staticRenderFns)
    (node : ASTNode) (ctx : Ctx) (st : CodegenState) (checkSkip : Bool) :
    st.staticRenderFns <+:
      (genChildrenBody GE GN node ctx st checkSkip).2.staticRenderFns := by
  cases node with
  | interp e t x => exact List.prefix_refl _
  | txt t b => exact List.prefix_refl _
  | el s ch ifs sl =>
    unfold genChildrenBody
    dsimp only
    split
    · exact List.prefix_refl _
    · split
      · exact hGE _ _ _
      · exact seqCompile_mono _ (fun c stt => hGN c _ stt) _ st

/-- genNodeBody preserves static-list prefixes when genElement does. -/
theorem genNodeBody_mono (GE : GenFn)
    (hGE : ∀ node ctx st, st.staticRenderFns <+: (GE node ctx st).2.staticRenderFns)
    (node : ASTNode) (ctx : Ctx) (st : CodegenState) :
    st.staticRenderFns <+: (genNodeBody GE node ctx st).2.staticRenderFns := by
  cases node with
  | el s ch ifs sl => exact hGE _ _ _
  | interp e t x => exact List.prefix_refl _
  | txt t b =>
    cases b with
    | true => exact List.prefix_refl _
    | false => exact List.prefix_refl _

/-- genSlotBody preserves static-list prefixes when genChildren does. -/
theorem genSlotBody_mono (GCh : GenChildrenFn)
    (hGCh : ∀ node ctx st b, st.staticRenderFns <+: (GCh node ctx st b).2.staticRenderFns)
    (node : ASTNode) (ctx : Ctx) (st : CodegenState) :
    st.staticRenderFns <+: (genSlotBody GCh node ctx st).2.staticRenderFns :=
  hGCh _ _ _ _

/-- genComponentBody preserves static-list prefixes when its callees do. -/
theorem genComponentBody_mono (GCh : GenChildrenFn) (GData : GenFn)
    (hGCh : ∀ node ctx st b, st.staticRenderFns <+: (GCh node ctx st b).2.staticRenderFns)
    (hGData : ∀ node ctx st, st.staticRenderFns <+: (GData node ctx st).2.staticRenderFns)
    (nm : String) (node : ASTNode) (ctx : Ctx) (st : CodegenState) :
    st.staticRenderFns <+:
      (genComponentBody GCh GData nm node ctx st).2.staticRenderFns := by
  unfold genComponentBody
  dsimp only
  split
  · exact hGData _ _ _
  · exact (hGCh _ _ _ _).trans (hGData _ _ _)

/-- Across every operation of the code generator, at every fuel, the
state's static-program list is append-only: the incoming list is a prefix
of the outgoing one. -/
theorem staticFns_mono (n : Nat) :
    (∀ node ctx st, st.staticRenderFns <+:
      (genElement n node ctx st).2.staticRenderFns) ∧
    (∀ node ctx st, st.staticRenderFns <+:
      (genStatic n node ctx st).2.staticRenderFns) ∧
    (∀ node ctx st, st.staticRenderFns <+:
      (genOnce n node ctx st).2.staticRenderFns) ∧
    (∀ node ctx st, st.staticRenderFns <+:
      (genIf n node ctx st).2.staticRenderFns) ∧
    (∀ node ctx st, st.staticRenderFns <+:
      (genTernaryExp n node ctx st).2.staticRenderFns) ∧
    (∀ node ctx st, st.staticRenderFns <+:
      (genFor n node ctx st).2.staticRenderFns) ∧
    (∀ node ctx st, st.staticRenderFns <+:
      (genData n node ctx st).2.staticRenderFns) ∧
    (∀ node ctx st, st.staticRenderFns <+:
      (genInlineTemplate n node ctx st).2.staticRenderFns) ∧
    (∀ node ctx st, st.staticRenderFns <+:
      (genScopedSlots n node ctx st).2.staticRenderFns) ∧
    (∀ key node ctx st, st.staticRenderFns <+:
      (genScopedSlot n key node ctx st).2.staticRenderFns) ∧
    (∀ key node ctx st, st.staticRenderFns <+:
      (genForScopedSlot n key node ctx st).2.staticRenderFns) ∧
    (∀ node ctx st checkSkip, st.staticRenderFns <+:
      (genChildren n node ctx st checkSkip).2.staticRenderFns) ∧
    (∀ node ctx st, st.staticRenderFns <+:
      (genNode n node ctx st).2.staticRenderFns) ∧
    (∀ node ctx st, st.staticRenderFns <+:
      (genSlot n node ctx st).2.staticRenderFns) ∧
    (∀ name node ctx st, st.staticRenderFns <+:
      (genComponent n name node ctx st).2.staticRenderFns) := by
  induction n with
  | zero =>
    refine ⟨?_, ?_, ?_, ?_, ?_, ?_, ?_, ?_, ?_, ?_, ?_, ?_, ?_, ?_, ?_⟩ <;>
      intros <;> exact List.prefix_refl _
  | succ n ih =>
    obtain ⟨ihElement, ihStatic, ihOnce, ihIf, ihTernary, ihFor, ihData,
      ihInline, ihSlots, ihSlot, ihForSlot, ihChildren, ihNode, ihGenSlot,
      ihComponent⟩ := ih
    refine ⟨?_, ?_, ?_, ?_, ?_, ?_, ?_, ?_, ?_, ?_, ?_, ?_, ?_, ?_, ?_⟩
    · exact fun node ctx st =>
        genElementBody_mono _ _ _ _ _ _ _ _ ihStatic ihOnce ihFor ihIf
          ihGenSlot ihData ihChildren ihComponent node ctx st
    · exact fun node ctx st => genStaticBody_mono _ ihElement node ctx st
    · exact fun node ctx st =>
        genOnceBody_mono _ _ _ ihElement ihIf ihStatic node ctx st
    · exact fun node ctx st => genIfBody_mono _ ihTernary node ctx st
    · exact fun node ctx st =>
        genTernaryExpBody_mono _ _ ihOnce ihElement node ctx st
    · exact fun node ctx st => genForBody_mono _ ihElement node ctx st
    · exact fun node ctx st => genDataBody_mono _ _ ihSlots ihInline node ctx st
    · exact fun node ctx st => genInlineTemplateBody_mono _ node ctx st
    · exact fun node ctx st => genScopedSlotsBody_mono _ ihSlot node ctx st
    · exact fun key node ctx st =>
        genScopedSlotBody_mono _ _ _ ihForSlot ihChildren ihElement key node ctx st
    · exact fun key node ctx st =>
        genForScopedSlotBody_mono _ ihSlot key node ctx st
    · exact fun node ctx st checkSkip =>
        genChildrenBody_mono _ _ ihElement ihNode node ctx st checkSkip
    · exact fun node ctx st => genNodeBody_mono _ ihElement node ctx st
    · exact fun node ctx st => genSlotBody_mono _ ihChildren node ctx st
    · exact fun name node ctx st =>
        genComponentBody_mono _ _ ihChildren ihData name node ctx st

/-! ### Static hoisting (claim C2) -/
/-- A static-root element whose guard is unset dispatches to the static
generator. -/
theorem genElementDispatch_static (GS GO GF GI GSlot GData : GenFn)
    (GCh : GenChildrenFn) (GComp : GenComponentFn)
    (s : ElScalars) (ch : List ASTNode) (ifs : List (Option String × ASTNode))
    (sl : List (String × ASTNode)) (ctx : Ctx) (st : CodegenState)
    (hr : s.staticRoot = true) (hp : s.staticProcessed = false) :
    genElementDispatch GS GO GF GI GSlot GData GCh GComp s ch ifs sl ctx st =
      GS (ASTNode.el s ch ifs sl) ctx st := by
  unfold genElementDispatch
  dsimp only
  rw [if_pos (show (s.staticRoot && !s.staticProcessed) = true by
    rw [hr, hp]; rfl)]

/-- genStaticBody, spelled out: the hoisted body, the reference by the
just-appended index, the clone flag, and the restored raw-markup flag. -/
theorem genStaticBody_spec (GE : GenFn) (node : ASTNode) (ctx : Ctx)
    (st : CodegenState) :
    genStaticBody GE node ctx st =
      (let r := GE (setStaticProcessed node) ctx
         (if node.scalars.pre then { st with pre := node.scalars.pre } else st)
       let st2 := { r.2 with
         staticRenderFns :=
           r.2.staticRenderFns ++ ["with(this)\x7breturn " ++ r.1 ++ "\x7d"],
         pre := st.pre }
       ("_m(" ++ toString r.2.staticRenderFns.length ++
         (if node.scalars.staticInFor then ",true" else "") ++ ")", st2)) := rfl

/-- One static-hoist step of genElement: a static-root element (guard
unset) compiles through genStatic, which appends exactly one entry — the
element's own hoisted body — and returns the reference to it by its index,
with the clone flag exactly when the element sits inside an iteration. -/
theorem genElement_static_step (n : Nat) (ctx : Ctx) (st : CodegenState)
    (s : ElScalars) (ch : List ASTNode) (ifs : List (Option String × ASTNode))
    (sl : List (String × ASTNode))
    (hr : s.staticRoot = true) (hp : s.staticProcessed = false) :
    ∃ code l,
      st.staticRenderFns <+: l ∧
      (genElement (n + 2) (ASTNode.el s ch ifs sl) ctx st).1 =
        "_m(" ++ toString l.length ++
          (if s.staticInFor then ",true" else "") ++ ")" ∧
      (genElement (n + 2) (ASTNode.el s ch ifs sl) ctx st).2.staticRenderFns =
        l ++ ["with(this)\x7breturn " ++ code ++ "\x7d"] := by
  have hd : genElement (n + 2) (ASTNode.el s ch ifs sl) ctx st =
      genStaticBody (genElement n)
        (ASTNode.el { s with pre := s.pre || parentPre ctx } ch ifs sl) ctx st := by
    show genElementDispatch (genStatic (n + 1)) (genOnce (n + 1)) (genFor (n + 1))
      (genIf (n + 1)) (genSlot (n + 1)) (genData (n + 1)) (genChildren (n + 1))
      (genComponent (n + 1))
      { s with pre := s.pre || parentPre ctx } ch ifs sl ctx st = _
    exact genElementDispatch_static _ _ _ _ _ _ _ _
      { s with pre := s.pre || parentPre ctx } ch ifs sl ctx st hr hp
  refine ⟨(genElement n
      (setStaticProcessed (ASTNode.el { s with pre := s.pre || parentPre ctx }
        ch ifs sl)) ctx
      (if ({ s with pre := s.pre || parentPre ctx } : ElScalars).pre then
        { st with pre := ({ s with pre := s.pre || parentPre ctx } : ElScalars).pre }
       else st)).1,
    (genElement n
      (setStaticProcessed (ASTNode.el { s with pre := s.pre || parentPre ctx }
        ch ifs sl)) ctx
      (if ({ s with pre := s.pre || parentPre ctx } : ElScalars).pre then
        { st with pre := ({ s with pre := s.pre || parentPre ctx } : ElScalars).pre }
       else st)).2.staticRenderFns, ?_, ?_, ?_⟩
  · have hIn : (if ({ s with pre := s.pre || parentPre ctx } : ElScalars).pre then
        { st with pre := ({ s with pre := s.pre || parentPre ctx } : ElScalars).pre }
       else st).staticRenderFns = st.staticRenderFns := by
      split <;> rfl
    have h := (staticFns_mono n).1
      (setStaticProcessed (ASTNode.el { s with pre := s.pre || parentPre ctx }
        ch ifs sl)) ctx
      (if ({ s with pre := s.pre || parentPre ctx } : ElScalars).pre then
        { st with pre := ({ s with pre := s.pre || parentPre ctx } : ElScalars).pre }
       else st)
    rw [hIn] at h
    exact h
  · rw [hd]; rfl
  · rw [hd]; rfl

/-- C2. Compiling two static-root elements (guards unset) in sequence:
each genElement call dispatches to genStatic, which appends exactly one
entry — the element's own hoisted body `with(this){return ...}` — to the
static-program list and returns `_m(i)` where `i` is precisely that entry's
index, with the `,true` clone flag exactly when the element sits inside an
iteration; the two calls return distinct indices (strictly increasing), and
in the final state each index still holds its own entry — so structurally
identical static roots never share a hoisted slot. -/
theorem C2_static_hoist_distinct
    (n : Nat) (ctx1 ctx2 : Ctx) (st0 : CodegenState)
    (s1 : ElScalars) (ch1 : List ASTNode) (ifs1 : List (Option String × ASTNode))
    (sl1 : List (String × ASTNode))
    (s2 : ElScalars) (ch2 : List ASTNode) (ifs2 : List (Option String × ASTNode))
    (sl2 : List (String × ASTNode))
    (h1r : s1.staticRoot = true) (h1p : s1.staticProcessed = false)
    (h2r : s2.staticRoot = true) (h2p : s2.staticProcessed = false) :
    ∃ code1 code2 l1 l2,
      (genElement (n + 2) (ASTNode.el s1 ch1 ifs1 sl1) ctx1 st0).1 =
        "_m(" ++ toString l1.length ++
          (if s1.staticInFor then ",true" else "") ++ ")" ∧
      (genElement (n + 2) (ASTNode.el s1 ch1 ifs1 sl1) ctx1 st0).2.staticRenderFns =
        l1 ++ ["with(this)\x7breturn " ++ code1 ++ "\x7d"] ∧
      st0.staticRenderFns <+: l1 ∧
      (genElement (n + 2) (ASTNode.el s2 ch2 ifs2 sl2) ctx2
        (genElement (n + 2) (ASTNode.el s1 ch1 ifs1 sl1) ctx1 st0).2).1 =
        "_m(" ++ toString l2.length ++
          (if s2.staticInFor then ",true" else "") ++ ")" ∧
      (genElement (n + 2) (ASTNode.el s2 ch2 ifs2 sl2) ctx2
        (genElement (n + 2) (ASTNode.el s1 ch1 ifs1 sl1) ctx1 st0).2).2.staticRenderFns =
        l2 ++ ["with(this)\x7breturn " ++ code2 ++ "\x7d"] ∧
      l1 ++ ["with(this)\x7breturn " ++ code1 ++ "\x7d"] <+: l2 ∧
      l1.length < l2.length ∧
      (genElement (n + 2) (ASTNode.el s2 ch2 ifs2 sl2) ctx2
        (genElement (n + 2) (ASTNode.el s1 ch1 ifs1 sl1) ctx1 st0).2).2.staticRenderFns[l1.length]? =
        some ("with(this)\x7breturn " ++ code1 ++ "\x7d") ∧
      (genElement (n + 2) (ASTNode.el s2 ch2 ifs2 sl2) ctx2
        (genElement (n + 2) (ASTNode.el s1 ch1 ifs1 sl1) ctx1 st0).2).2.staticRenderFns[l2.length]? =
        some ("with(this)\x7breturn " ++ code2 ++ "\x7d") := by
  obtain ⟨c1, l1, hpre1, h11, h12⟩ :=
    genElement_static_step n ctx1 st0 s1 ch1 ifs1 sl1 h1r h1p
  obtain ⟨c2, l2, hpre2, h21, h22⟩ :=
    genElement_static_step n ctx2
      (genElement (n + 2) (ASTNode.el s1 ch1 ifs1 sl1) ctx1 st0).2
      s2 ch2 ifs2 sl2 h2r h2p
  have hfull : l1 ++ ["with(this)\x7breturn " ++ c1 ++ "\x7d"] <+: l2 := by
    rw [← h12]; exact hpre2
  have hlen : l1.length < l2.length := by
    have := hfull.length_le
    simp only [List.length_append, List.length_cons, List.length_nil] at this
    omega
  have hext := hfull
  obtain ⟨t, ht⟩ := hext
  refine ⟨c1, c2, l1, l2, h11, h12, hpre1, h21, h22, hfull, hlen, ?_, ?_⟩
  · rw [h22, ← ht, List.append_assoc, List.append_assoc,
      List.getElem?_append_right (Nat.le_refl _)]
    simp
  · rw [h22, List.getElem?_append_right (Nat.le_refl _)]
    simp

set_option maxHeartbeats 2000000 in
/-- Witness for C2: two structurally identical static spans hoist to two
distinct entries, referenced as `_m(0)` and `_m(1)`. -/
theorem C2_witness :
    (genElement 5 stSpan [] exSt).1 = "_m(0)" ∧
    (genElement 5 stSpan [] (genElement 5 stSpan [] exSt).2).1 = "_m(1)" ∧
    (genElement 5 stSpan [] (genElement 5 stSpan [] exSt).2).2.staticRenderFns =
      ["with(this)\x7breturn _c('span')\x7d",
       "with(this)\x7breturn _c('span')\x7d"] := by
  obtain ⟨c1, c2, l1, l2, h1, h2, h3, h4, h5, h6, h7, h8, h9⟩ :=
    C2_static_hoist_distinct 3 [] [] exSt
      { tag := "span", staticRoot := true } [] [] []
      { tag := "span", staticRoot := true } [] [] [] rfl rfl rfl rfl
  exact ⟨by rfl, by rfl, by rfl⟩

/-- The two lists built by parseText's loop are parallel: the string list is
exactly the raw-token list rendered segment by segment. -/
theorem parseTextLoop_join (crlf : Bool) (openD close : List Char) :
    ∀ fuel l, (parseTextLoop crlf openD close fuel l).1
      = (parseTextLoop crlf openD close fuel l).2.map renderRawToken := by
  intro fuel
  induction fuel with
  | zero =>
    intro l
    unfold parseTextLoop
    by_cases h : l.isEmpty <;> simp [h, renderRawToken]
  | succ n ih =>
    intro l
    unfold parseTextLoop
    rcases hFM : findTagMatch crlf openD close l.length l with _ | ⟨pre, content, rest⟩
    · by_cases h : l.isEmpty <;> simp [h, renderRawToken]
    · by_cases h : pre.isEmpty <;> simp [h, renderRawToken, ih rest]

/-- C5: parseText returns nothing when the text holds no delimiter-enclosed
span; on a match it returns the plus-joined concatenation expression over the
segments in order — literal segments JSON-quoted, expression segments as
`_s(e)` with `e` the filter-parsed expression — together with the parallel
raw-token list rendering to exactly those segments in the same order. -/
theorem C5_parseText_tokens (text : String) :
    (findTagMatch true ['{', '{'] ['}', '}'] text.data.length text.data = none →
      parseText text none = none) ∧
    ∀ r, parseText text none = some r →
      r.expression = String.intercalate "+" (r.tokens.map renderRawToken) := by
  constructor
  · intro h
    unfold parseText
    simp only [Option.isNone_none, h]
  · intro r h
    unfold parseText at h
    simp only [Option.isNone_none] at h
    rcases hFM : findTagMatch true ['{', '{'] ['}', '}'] text.data.length
        text.data with _ | m
    · rw [hFM] at h
      exact absurd h (by simp)
    · rw [hFM] at h
      cases h
      exact congrArg (String.intercalate "+")
        (parseTextLoop_join true ['{', '{'] ['}', '}'] text.data.length
          text.data)

set_option maxHeartbeats 1000000 in
/-- C5 witness: the claim's example text yields the concatenation of the
JSON-quoted literal, the filter call wrapped in `_s`, and the trailing
literal, with the parallel raw-token list rendering back to it. -/
theorem C5_witness :
    parseText "a \x7b\x7b b | f \x7d\x7d c" none =
      some { expression := "\"a \"+_s(f(b))+\" c\"",
             tokens := [RawToken.str "a ", RawToken.binding "f(b)",
                        RawToken.str " c"] } ∧
    "\"a \"+_s(f(b))+\" c\"" = String.intercalate "+"
      ([RawToken.str "a ", RawToken.binding "f(b)",
        RawToken.str " c"].map renderRawToken) := by
  refine ⟨by rfl, ?_⟩
  exact (C5_parseText_tokens "a \x7b\x7b b | f \x7d\x7d c").2
    { expression := "\"a \"+_s(f(b))+\" c\"",
      tokens := [RawToken.str "a ", RawToken.binding "f(b)",
                 RawToken.str " c"] } (by rfl)

/-- A predicate false on every list element is found nowhere, whatever the
index accumulator. -/
theorem findIdx?_none_of_all {α : Type} (p : α → Bool) :
    ∀ (l : List α) (i : Nat), (∀ x ∈ l, p x = false)
      → List.findIdx? p l i = none := by
  intro l
  induction l with
  | nil => intro i _; exact List.findIdx?_nil
  | cons a t ih =>
    intro i h
    have ha := h a (List.mem_cons_self a t)
    rw [List.findIdx?_cons, ha, if_neg Bool.false_ne_true]
    exact ih (i + 1) (fun x hx => h x (List.mem_cons_of_mem a hx))

/-- C6: an end tag whose lowercased name matches no stack entry emits no
end event and leaves stack and lastTag (and the diagnostics) untouched,
except the two synthesized cases: "br" yields one self-closing start event,
"p" yields a start event immediately followed by an end event. -/
theorem C6_stray_end_tag (tn : String) (stack : List StackEntry)
    (lastTag : Option String)
    (h : ∀ e ∈ stack, e.lowerCasedTag ≠ lowerCase tn) :
    (parseEndTag (some tn) stack lastTag).stack = stack ∧
    (parseEndTag (some tn) stack lastTag).lastTag = lastTag ∧
    (parseEndTag (some tn) stack lastTag).warns = [] ∧
    (if lowerCase tn = "br" then
      (parseEndTag (some tn) stack lastTag).events = [TagEvent.start tn true]
     else if lowerCase tn = "p" then
      (parseEndTag (some tn) stack lastTag).events
        = [TagEvent.start tn false, TagEvent.end_ tn]
     else (parseEndTag (some tn) stack lastTag).events = []) := by
  have hfind : stack.findIdx? (fun e => e.lowerCasedTag == lowerCase tn)
      = none := by
    apply findIdx?_none_of_all
    intro e he
    exact beq_eq_false_iff_ne.mpr (h e he)
  clear h
  unfold parseEndTag
  simp only [hfind, Option.map_none']
  by_cases hbr : lowerCase tn = "br"
  · simp [hbr]
  · by_cases hp : lowerCase tn = "p"
    · simp [hbr, hp]
    · simp [hbr, hp]

/-- C6 witness: a stray div end tag over a span-topped stack is ignored,
a stray BR end tag synthesizes a unary start, and a stray P end tag
synthesizes a start/end pair (both case-insensitively). -/
theorem C6_witness :
    (parseEndTag (some "div") [{ tag := "span", lowerCasedTag := "span" }]
        (some "span")).events = [] ∧
    (parseEndTag (some "div") [{ tag := "span", lowerCasedTag := "span" }]
        (some "span")).stack = [{ tag := "span", lowerCasedTag := "span" }] ∧
    (parseEndTag (some "BR") [] none).events = [TagEvent.start "BR" true] ∧
    (parseEndTag (some "P") [] none).events
      = [TagEvent.start "P" false, TagEvent.end_ "P"] := by
  have h1 := C6_stray_end_tag "div"
    [{ tag := "span", lowerCasedTag := "span" }] (some "span") (by decide)
  have h2 := C6_stray_end_tag "BR" [] none (by simp)
  have h3 := C6_stray_end_tag "P" [] none (by simp)
  refine ⟨?_, h1.1, ?_, ?_⟩
  · have h := h1.2.2.2
    rw [if_neg (by decide), if_neg (by decide)] at h
    exact h
  · have h := h2.2.2.2
    rw [if_pos (by decide)] at h
    exact h
  · have h := h3.2.2.2
    rw [if_neg (by decide), if_pos (by decide)] at h
    exact h

/-- Event counts distribute over concatenation (end events). -/
theorem countEnds_append (a b : List TagEvent) :
    countEnds (a ++ b) = countEnds a + countEnds b :=
  List.countP_append _ _ _

/-- Event counts distribute over concatenation (non-unary start events). -/
theorem countNonUnaryStarts_append (a b : List TagEvent) :
    countNonUnaryStarts (a ++ b)
      = countNonUnaryStarts a + countNonUnaryStarts b :=
  List.countP_append _ _ _

/-- A block of end events counts one end per entry. -/
theorem countEnds_map_end (l : List StackEntry) :
    countEnds (l.map (fun e => TagEvent.end_ e.tag)) = l.length := by
  induction l with
  | nil => rfl
  | cons a t ih =>
    unfold countEnds at *
    simp only [List.map_cons, List.countP_cons, ih]
    rfl

/-- A block of end events holds no start event. -/
theorem countNonUnaryStarts_map_end (l : List StackEntry) :
    countNonUnaryStarts (l.map (fun e => TagEvent.end_ e.tag)) = 0 := by
  induction l with
  | nil => rfl
  | cons a t ih =>
    unfold countNonUnaryStarts at *
    simp only [List.map_cons, List.countP_cons, ih]
    rfl

/-- parseEndTag preserves the tokenizer balance: end events emitted plus
entries still open equals non-unary start events emitted plus entries that
were open before. -/
theorem parseEndTag_balance (tagName : Option String)
    (stack : List StackEntry) (lastTag : Option String) :
    countEnds (parseEndTag tagName stack lastTag).events
      + (parseEndTag tagName stack lastTag).stack.length
    = countNonUnaryStarts (parseEndTag tagName stack lastTag).events
      + stack.length := by
  unfold parseEndTag
  cases tagName with
  | none =>
    simp only [countEnds_map_end, countNonUnaryStarts_map_end,
      List.length_take, List.length_drop]
    omega
  | some tn =>
    cases hf : stack.findIdx? (fun e => e.lowerCasedTag == lowerCase tn) with
    | some idx =>
      simp only [hf, Option.map_some']
      simp only [countEnds_map_end, countNonUnaryStarts_map_end,
        List.length_take, List.length_drop]
      omega
    | none =>
      simp only [hf, Option.map_none']
      by_cases hbr : lowerCase tn = "br"
      · simp [hbr, countEnds, countNonUnaryStarts]
      · by_cases hp : lowerCase tn = "p"
        · simp [hbr, hp, countEnds, countNonUnaryStarts]
        · simp [hbr, hp, countEnds, countNonUnaryStarts]

/-- countEnds and countNonUnaryStarts on a singleton start event. -/
theorem countEnds_start (t : String) (u : Bool) :
    countEnds [TagEvent.start t u] = 0 := by
  cases u <;> rfl

/-- A unary start event counts no non-unary start. -/
theorem countNonUnaryStarts_start_true (t : String) :
    countNonUnaryStarts [TagEvent.start t true] = 0 := rfl

/-- A non-unary start event counts one non-unary start. -/
theorem countNonUnaryStarts_start_false (t : String) :
    countNonUnaryStarts [TagEvent.start t false] = 1 := rfl

set_option linter.unnecessarySeqFocus false in
/-- handleStartTag preserves the tokenizer balance. -/
theorem handleStartTag_balance (cfg : TokenizerCfg) (tagName : String)
    (unarySlash : Bool) (stack : List StackEntry) (lastTag : Option String) :
    countEnds (handleStartTag cfg tagName unarySlash stack lastTag).events
      + (handleStartTag cfg tagName unarySlash stack lastTag).stack.length
    = countNonUnaryStarts
        (handleStartTag cfg tagName unarySlash stack lastTag).events
      + stack.length := by
  unfold handleStartTag
  dsimp only
  split
  case isTrue h1 =>
    have b1 := parseEndTag_balance lastTag stack lastTag
    split
    case isTrue h2 =>
      have b2 := parseEndTag_balance (some tagName)
        (parseEndTag lastTag stack lastTag).stack
        (parseEndTag lastTag stack lastTag).lastTag
      cases hu : cfg.isUnaryTag tagName || unarySlash <;>
        simp only [Bool.false_eq_true, eq_self_iff_true, if_true, if_false,
          countEnds_append, countNonUnaryStarts_append, countEnds_start,
          countNonUnaryStarts_start_true, countNonUnaryStarts_start_false,
          List.length_cons, List.nil_append] <;>
        omega
    case isFalse h2 =>
      cases hu : cfg.isUnaryTag tagName || unarySlash <;>
        simp only [Bool.false_eq_true, eq_self_iff_true, if_true, if_false,
          countEnds_append, countNonUnaryStarts_append, countEnds_start,
          countNonUnaryStarts_start_true, countNonUnaryStarts_start_false,
          List.length_cons, List.nil_append] <;>
        omega
  case isFalse h1 =>
    dsimp only
    split
    case isTrue h2 =>
      have b2 := parseEndTag_balance (some tagName) stack lastTag
      cases hu : cfg.isUnaryTag tagName || unarySlash <;>
        simp only [Bool.false_eq_true, eq_self_iff_true, if_true, if_false,
          countEnds_append, countNonUnaryStarts_append, countEnds_start,
          countNonUnaryStarts_start_true, countNonUnaryStarts_start_false,
          List.length_cons, List.nil_append] <;>
        omega
    case isFalse h2 =>
      cases hu : cfg.isUnaryTag tagName || unarySlash <;>
        simp only [Bool.false_eq_true, eq_self_iff_true, if_true, if_false,
          countEnds_append, countNonUnaryStarts_append, countEnds_start,
          countNonUnaryStarts_start_true, countNonUnaryStarts_start_false,
          List.length_cons, List.nil_append] <;>
        omega

/-- Running the loop preserves the tokenizer balance. -/
theorem runToks_balance (cfg : TokenizerCfg) :
    ∀ (toks : List TagTok) (stack : List StackEntry)
      (lastTag : Option String),
    countEnds (runToks cfg toks stack lastTag).1
      + (runToks cfg toks stack lastTag).2.1.length
    = countNonUnaryStarts (runToks cfg toks stack lastTag).1
      + stack.length := by
  intro toks
  induction toks with
  | nil =>
    intro s l
    simp [runToks, countEnds, countNonUnaryStarts]
  | cons t ts ih =>
    intro s l
    unfold runToks
    dsimp only
    cases t with
    | startTok n u =>
      simp only [stepTok]
      have b := handleStartTag_balance cfg n u s l
      have hr := ih (handleStartTag cfg n u s l).stack
        (handleStartTag cfg n u s l).lastTag
      rw [countEnds_append, countNonUnaryStarts_append]
      omega
    | endTok n =>
      simp only [stepTok]
      have b := parseEndTag_balance (some n) s l
      have hr := ih (parseEndTag (some n) s l).stack
        (parseEndTag (some n) s l).lastTag
      rw [countEnds_append, countNonUnaryStarts_append]
      omega

/-- C10: the no-name cleanup call emits an end event for every entry still
on the stack, innermost (stack head) to outermost, each with its
missing-end-tag diagnostic, and leaves the stack empty; consequently a full
tokenizer run — the loop from an empty stack followed by that cleanup —
emits exactly as many end events as non-unary start events, whatever the
input tokens. -/
theorem C10_cleanup_balance (cfg : TokenizerCfg) (stack : List StackEntry)
    (lastTag : Option String) (toks : List TagTok) :
    (parseEndTag none stack lastTag).events
      = stack.map (fun e => TagEvent.end_ e.tag) ∧
    (parseEndTag none stack lastTag).warns
      = stack.map
          (fun e => "tag <" ++ e.tag ++ "> has no matching end tag.") ∧
    (parseEndTag none stack lastTag).stack = [] ∧
    countEnds (tokenizeRun cfg toks)
      = countNonUnaryStarts (tokenizeRun cfg toks) := by
  refine ⟨?_, ?_, ?_, ?_⟩
  · unfold parseEndTag
    simp [List.take_length]
  · unfold parseEndTag
    simp [List.take_length]
  · unfold parseEndTag
    simp [List.drop_length]
  · unfold tokenizeRun
    dsimp only
    have hrun := runToks_balance cfg toks [] none
    have hclean := parseEndTag_balance none (runToks cfg toks [] none).2.1
      (runToks cfg toks [] none).2.2
    have hz : countNonUnaryStarts
        (parseEndTag none (runToks cfg toks [] none).2.1
          (runToks cfg toks [] none).2.2).events = 0 := by
      unfold parseEndTag
      simp [countNonUnaryStarts_map_end]
    have he : (parseEndTag none (runToks cfg toks [] none).2.1
        (runToks cfg toks [] none).2.2).stack = [] := by
      unfold parseEndTag
      simp [List.drop_length]
    rw [countEnds_append, countNonUnaryStarts_append, hz]
    rw [he] at hclean
    simp only [List.length_nil] at hrun hclean
    omega

/-- One unfolding step of the findPrevElement walk at a cons cell. -/
theorem findPrevElementGo_cons (c : ASTNode) (rest : List ASTNode) :
    findPrevElementGo (c :: rest)
      = if c.isElem then (some c, c :: rest, [])
        else ((findPrevElementGo rest).1, (findPrevElementGo rest).2.1,
              findPrevWarn c ++ (findPrevElementGo rest).2.2) := rfl

/-- A run of non-element nodes before the rest is skipped entirely by the
findPrevElement walk, contributing only its diagnostics. -/
theorem findPrevElementGo_skip (rest : List ASTNode) :
    ∀ ts : List ASTNode, (∀ c ∈ ts, c.isElem = false) →
    findPrevElementGo (ts ++ rest)
      = ((findPrevElementGo rest).1, (findPrevElementGo rest).2.1,
         warnsOf ts ++ (findPrevElementGo rest).2.2) := by
  intro ts
  induction ts with
  | nil =>
    intro _
    rfl
  | cons c t ih =>
    intro h
    have hc := h c (List.mem_cons_self c t)
    have ih' := ih (fun x hx => h x (List.mem_cons_of_mem c hx))
    rw [List.cons_append, findPrevElementGo_cons, hc,
      if_neg Bool.false_ne_true, ih']
    simp only [warnsOf, List.append_assoc]

/-- findPrevElement on children that end in a trailing run of non-element
nodes after an element: finds that element, keeps everything up to and
including it, and collects the popped diagnostics, last child first. -/
theorem findPrevElement_decomp (pre tail : List ASTNode) (prevEl : ASTNode)
    (hElem : prevEl.isElem = true)
    (htail : ∀ c ∈ tail, c.isElem = false) :
    findPrevElement (pre ++ prevEl :: tail)
      = (some prevEl, pre ++ [prevEl], popWarnings tail) := by
  unfold findPrevElement
  dsimp only
  rw [List.reverse_append, List.reverse_cons, List.append_assoc]
  rw [findPrevElementGo_skip _ tail.reverse
    (fun c hc => htail c (List.mem_reverse.mp hc))]
  have hone : findPrevElementGo ([prevEl] ++ pre.reverse)
      = (some prevEl, prevEl :: pre.reverse, []) := by
    rw [List.singleton_append, findPrevElementGo_cons, hElem, if_pos rfl]
  rw [hone]
  dsimp only
  rw [List.reverse_cons, List.reverse_reverse]
  simp [popWarnings]

/-- C7 (amended): an else / else-if marked element makes the builder pop
every trailing non-element node of the parent's children, diagnosing each
popped node whose text is not the exact single-space string (so
pure-whitespace text other than a lone space is diagnosed too, not popped
silently); when the nearest preceding element sibling has a truthy if
expression, the marked element is appended to its conditional group with
the else-if expression as guard and never appears on the child list itself;
when that sibling's if expression is falsy, or no element sibling remains
at all, the missing-v-if diagnostic is issued after the popped-text ones. -/
theorem C7_else_branch_amended (el prevEl : ASTNode)
    (pre tail : List ASTNode)
    (hElem : prevEl.isElem = true)
    (htail : ∀ c ∈ tail, c.isElem = false) :
    (optTruthy prevEl.scalars.ifExp = true →
      processIfConditions el (pre ++ prevEl :: tail)
        = (pre ++ [addIfCondition prevEl (el.scalars.elseifExp, el)],
           popWarnings tail)) ∧
    (optTruthy prevEl.scalars.ifExp = false →
      processIfConditions el (pre ++ prevEl :: tail)
        = (pre ++ [prevEl],
           popWarnings tail ++ [processIfConditionsWarning el])) ∧
    (∀ ch : List ASTNode, (∀ c ∈ ch, c.isElem = false) →
      processIfConditions el ch
        = ([], popWarnings ch ++ [processIfConditionsWarning el])) := by
  have hfp := findPrevElement_decomp pre tail prevEl hElem htail
  refine ⟨?_, ?_, ?_⟩
  · intro hif
    unfold processIfConditions
    rw [hfp]
    dsimp only
    rw [hif, if_pos rfl, List.dropLast_concat]
  · intro hif
    unfold processIfConditions
    rw [hfp]
    dsimp only
    rw [hif, if_neg Bool.false_ne_true]
  · intro ch hch
    unfold processIfConditions findPrevElement
    dsimp only
    have hgo := findPrevElementGo_skip [] ch.reverse
      (fun c hc => hch c (List.mem_reverse.mp hc))
    rw [List.append_nil] at hgo
    rw [hgo]
    dsimp only [findPrevElementGo]
    simp [popWarnings]

/-- C7 counterexample: a pure-whitespace text node of two spaces between
the v-if element and the v-else element is popped WITH a diagnostic (its
trimmed text is empty in the message), contradicting the claim's silent
popping of pure-whitespace text; the branch is still appended. -/
theorem C7_counterexample :
    "  ".data.all Char.isWhitespace = true ∧
    (processIfConditions elseMarked [prevIfEl, ASTNode.txt "  " false]).2
      = [{ msg :=
            "text \"\" between v-if and v-else(-if) will be ignored." }] := by
  exact ⟨rfl, rfl⟩

/-- C7 witness: with a lone-space text node between them, the pop is
silent and the v-else element is appended as a guardless branch to the
v-if element's conditional group, leaving the parent's children without
the marked element. -/
theorem C7_witness :
    optTruthy (ASTNode.scalars prevIfEl).ifExp = true ∧
    processIfConditions elseMarked [prevIfEl, ASTNode.txt " " false]
      = ([addIfCondition prevIfEl (none, elseMarked)], []) := by
  have h := C7_else_branch_amended elseMarked prevIfEl []
    [ASTNode.txt " " false] rfl
    (by
      intro c hc
      simp only [List.mem_singleton] at hc
      subst hc
      rfl)
  refine ⟨rfl, ?_⟩
  have h1 := h.1 rfl
  exact h1.trans (by rfl)

/-- The component test never reads the sink. -/
theorem maybeComponent_warnings (st : CodegenState) (w : List Warning)
    (s : ElScalars) :
    maybeComponent { st with warnings := w } s = maybeComponent st s := rfl

/-- seqCompile is sink-noninterfering when its compiler is. -/
theorem seqCompile_ni {α : Type}
    (f : α → CodegenState → String × CodegenState)
    (hf : ∀ a st w, ∃ w2, f a { st with warnings := w }
      = ((f a st).1, { (f a st).2 with warnings := w2 })) :
    ∀ (l : List α) (st : CodegenState) (w : List Warning), ∃ w2,
      seqCompile f l { st with warnings := w }
        = ((seqCompile f l st).1,
           { (seqCompile f l st).2 with warnings := w2 }) := by
  intro l
  induction l with
  | nil => intro st w; exact ⟨w, rfl⟩
  | cons a rest ih =>
    intro st w
    obtain ⟨w1, h1⟩ := hf a st w
    obtain ⟨w2, h2⟩ := ih (f a st).2 w1
    refine ⟨w2, ?_⟩
    show ((f a { st with warnings := w }).1 ::
            (seqCompile f rest (f a { st with warnings := w }).2).1,
          (seqCompile f rest (f a { st with warnings := w }).2).2) = _
    rw [h1]
    dsimp only
    rw [h2]
    rfl

/-- genIfConditions is sink-noninterfering when its branch compiler is. -/
theorem genIfConditions_ni
    (gen : ASTNode → CodegenState → String × CodegenState)
    (hgen : ∀ b st w, ∃ w2, gen b { st with warnings := w }
      = ((gen b st).1, { (gen b st).2 with warnings := w2 })) :
    ∀ (conds : List (Option String × ASTNode)) (st : CodegenState)
      (w : List Warning), ∃ w2,
      genIfConditions gen conds { st with warnings := w }
        = ((genIfConditions gen conds st).1,
           { (genIfConditions gen conds st).2 with warnings := w2 }) := by
  intro conds
  induction conds with
  | nil => intro st w; exact ⟨w, rfl⟩
  | cons c rest ih =>
    obtain ⟨exp, block⟩ := c
    intro st w
    simp only [genIfConditions]
    cases he : optTruthy exp with
    | false =>
      simp only [Bool.false_eq_true, if_false]
      exact hgen block st w
    | true =>
      simp only [eq_self_iff_true, if_true]
      obtain ⟨w1, h1⟩ := hgen block st w
      obtain ⟨w2, h2⟩ := ih (gen block st).2 w1
      refine ⟨w2, ?_⟩
      rw [h1]
      dsimp only
      rw [h2]

/-- genTernaryExpBody is sink-noninterfering when its callees are. -/
theorem genTernaryExpBody_ni (GO GE : GenFn)
    (hGO : sinkIndepGen GO) (hGE : sinkIndepGen GE) :
    sinkIndepGen (genTernaryExpBody GO GE) := by
  intro node ctx st w
  unfold genTernaryExpBody
  split
  · exact hGO node ctx st w
  · exact hGE node ctx st w

/-- genNodeBody is sink-noninterfering when genElement is. -/
theorem genNodeBody_ni (GE : GenFn) (hGE : sinkIndepGen GE) :
    sinkIndepGen (genNodeBody GE) := by
  intro node ctx st w
  cases node with
  | el s ch ifs sl => exact hGE _ ctx st w
  | interp e t x => exact ⟨w, rfl⟩
  | txt t b => cases b <;> exact ⟨w, rfl⟩

/-- genIfBody is sink-noninterfering when genTernaryExp is. -/
theorem genIfBody_ni (GT : GenFn) (hGT : sinkIndepGen GT) :
    sinkIndepGen (genIfBody GT) := by
  intro node ctx st w
  unfold genIfBody
  exact genIfConditions_ni _ (fun b stt ww => hGT b ctx stt ww)
    (fullIfConditions (setIfProcessed node)) st w

/-- genStaticBody is sink-noninterfering when genElement is. -/
theorem genStaticBody_ni (GE : GenFn) (hGE : sinkIndepGen GE) :
    sinkIndepGen (genStaticBody GE) := by
  intro node ctx st w
  unfold genStaticBody
  dsimp only
  by_cases hp : node.scalars.pre = true
  · rw [if_pos hp, if_pos hp]
    obtain ⟨w2, hw⟩ := hGE (setStaticProcessed node) ctx
      { st with pre := node.scalars.pre } w
    have hw' : GE (setStaticProcessed node) ctx
        { st with pre := node.scalars.pre, warnings := w }
        = ((GE (setStaticProcessed node) ctx
            { st with pre := node.scalars.pre }).1,
           { (GE (setStaticProcessed node) ctx
              { st with pre := node.scalars.pre }).2 with warnings := w2 }) :=
      hw
    refine ⟨w2, ?_⟩
    rw [hw']
  · rw [if_neg hp, if_neg hp]
    obtain ⟨w2, hw⟩ := hGE (setStaticProcessed node) ctx st w
    refine ⟨w2, ?_⟩
    rw [hw]

/-- genForBody is sink-noninterfering when genElement is. -/
theorem genForBody_ni (GE : GenFn) (hGE : sinkIndepGen GE) :
    sinkIndepGen (genForBody GE) := by
  intro node ctx st w
  unfold genForBody
  dsimp only
  simp only [maybeComponent_warnings]
  by_cases hc : (maybeComponent st node.scalars
      && node.scalars.tag != "slot" && node.scalars.tag != "template"
      && !optTruthy node.scalars.key) = true
  · rw [if_pos hc, if_pos hc]
    simp only [CodegenState.warn]
    obtain ⟨w2, hw⟩ := hGE (setForProcessed node) ctx
      (st.warn ("<" ++ node.scalars.tag ++ " v-for=\""
        ++ node.scalars.aliasExp.getD "undefined" ++ " in "
        ++ node.scalars.forExp.getD ""
        ++ "\">: component lists rendered with v-for should have explicit keys. "
        ++ "See https://vuejs.org/guide/list.html#key for more info.") true)
      (w ++ [⟨"<" ++ node.scalars.tag ++ " v-for=\""
        ++ node.scalars.aliasExp.getD "undefined" ++ " in "
        ++ node.scalars.forExp.getD ""
        ++ "\">: component lists rendered with v-for should have explicit keys. "
        ++ "See https://vuejs.org/guide/list.html#key for more info.", true⟩])
    refine ⟨w2, ?_⟩
    have hw' := hw
    rw [show (st.warn ("<" ++ node.scalars.tag ++ " v-for=\""
        ++ node.scalars.aliasExp.getD "undefined" ++ " in "
        ++ node.scalars.forExp.getD ""
        ++ "\">: component lists rendered with v-for should have explicit keys. "
        ++ "See https://vuejs.org/guide/list.html#key for more info.") true)
      = { st with warnings := st.warnings ++ [⟨"<" ++ node.scalars.tag
        ++ " v-for=\"" ++ node.scalars.aliasExp.getD "undefined" ++ " in "
        ++ node.scalars.forExp.getD ""
        ++ "\">: component lists rendered with v-for should have explicit keys. "
        ++ "See https://vuejs.org/guide/list.html#key for more info.", true⟩] }
      from rfl] at hw'
    rw [hw']
  · rw [if_neg hc, if_neg hc]
    obtain ⟨w2, hw⟩ := hGE (setForProcessed node) ctx st w
    refine ⟨w2, ?_⟩
    rw [hw]

/-- genOnceBody is sink-noninterfering when its callees are. -/
theorem genOnceBody_ni (GE GI GS : GenFn)
    (hGE : sinkIndepGen GE) (hGI : sinkIndepGen GI) (hGS : sinkIndepGen GS) :
    sinkIndepGen (genOnceBody GE GI GS) := by
  intro node ctx st w
  unfold genOnceBody
  dsimp only
  by_cases h1 : (optTruthy node.scalars.ifExp
      && !node.scalars.ifProcessed) = true
  · rw [if_pos h1, if_pos h1]
    exact hGI (setOnceProcessed node) ctx st w
  rw [if_neg h1, if_neg h1]
  by_cases h2 : node.scalars.staticInFor = true
  · rw [if_pos h2, if_pos h2]
    by_cases h3 : (!optTruthy
        ((ctx.find? fun p => truthyFor p).bind ElScalars.key)) = true
    · rw [if_pos h3, if_pos h3]
      simp only [CodegenState.warn]
      obtain ⟨w2, hw⟩ := hGE (setOnceProcessed node) ctx
        { st with warnings := st.warnings
            ++ [⟨"v-once can only be used inside v-for that is keyed. ",
                false⟩] }
        (w ++ [⟨"v-once can only be used inside v-for that is keyed. ",
          false⟩])
      refine ⟨w2, ?_⟩
      have hw' : GE (setOnceProcessed node) ctx
          { st with warnings := w
              ++ [⟨"v-once can only be used inside v-for that is keyed. ",
                  false⟩] }
          = ((GE (setOnceProcessed node) ctx
              { st with warnings := st.warnings
                  ++ [⟨"v-once can only be used inside v-for that is keyed. ",
                      false⟩] }).1,
             { (GE (setOnceProcessed node) ctx
                { st with warnings := st.warnings
                    ++ [⟨"v-once can only be used inside v-for that is keyed. ",
                        false⟩] }).2 with warnings := w2 }) := hw
      rw [hw']
    · rw [if_neg h3, if_neg h3]
      obtain ⟨w2, hw⟩ := hGE (setOnceProcessed node) ctx st w
      refine ⟨w2, ?_⟩
      rw [hw]
  · rw [if_neg h2, if_neg h2]
    exact hGS (setOnceProcessed node) ctx st w

/-- genScopedSlotsBody is sink-noninterfering when genScopedSlot is. -/
theorem genScopedSlotsBody_ni (GSlot : GenSlotFn)
    (hGSlot : sinkIndepSlot GSlot) :
    sinkIndepGen (genScopedSlotsBody GSlot) := by
  intro node ctx st w
  cases node with
  | el s chl ifs sl =>
    unfold genScopedSlotsBody
    dsimp only
    obtain ⟨w2, hw⟩ := seqCompile_ni
      (fun (p : String × ASTNode) stt => GSlot p.1 p.2 (s :: ctx) stt)
      (fun p stt ww => hGSlot p.1 p.2 (s :: ctx) stt ww) sl st w
    refine ⟨w2, ?_⟩
    rw [hw]
  | interp e t x => exact ⟨w, rfl⟩
  | txt t b => exact ⟨w, rfl⟩

/-- genForScopedSlotBody is sink-noninterfering when genScopedSlot is. -/
theorem genForScopedSlotBody_ni (GSlot : GenSlotFn)
    (hGSlot : sinkIndepSlot GSlot) :
    sinkIndepSlot (genForScopedSlotBody GSlot) := by
  intro k node ctx st w
  unfold genForScopedSlotBody
  dsimp only
  obtain ⟨w2, hw⟩ := hGSlot k (setForProcessed node) ctx st w
  refine ⟨w2, ?_⟩
  rw [hw]

/-- genScopedSlotBody is sink-noninterfering when its callees are. -/
theorem genScopedSlotBody_ni (GFS : GenSlotFn) (GCh : GenChildrenFn)
    (GE : GenFn) (hGFS : sinkIndepSlot GFS) (hGCh : sinkIndepChildren GCh)
    (hGE : sinkIndepGen GE) :
    sinkIndepSlot (genScopedSlotBody GFS GCh GE) := by
  intro k node ctx st w
  unfold genScopedSlotBody
  dsimp only
  by_cases h1 : (truthyFor node.scalars && !node.scalars.forProcessed) = true
  · rw [if_pos h1, if_pos h1]
    exact hGFS k node ctx st w
  rw [if_neg h1, if_neg h1]
  by_cases h2 : (node.scalars.tag == "template") = true
  · rw [if_pos h2, if_pos h2]
    by_cases h3 : optTruthy node.scalars.ifExp = true
    · rw [if_pos h3, if_pos h3]
      obtain ⟨w2, hw⟩ := hGCh node ctx st false w
      refine ⟨w2, ?_⟩
      rw [hw]
    · rw [if_neg h3, if_neg h3]
      obtain ⟨w2, hw⟩ := hGCh node ctx st false w
      refine ⟨w2, ?_⟩
      rw [hw]
  · rw [if_neg h2, if_neg h2]
    obtain ⟨w2, hw⟩ := hGE node ctx st w
    refine ⟨w2, ?_⟩
    rw [hw]

/-- genChildrenBody is sink-noninterfering when its callees are. -/
theorem genChildrenBody_ni (GE GN : GenFn)
    (hGE : sinkIndepGen GE) (hGN : sinkIndepGen GN) :
    sinkIndepChildren (genChildrenBody GE GN) := by
  intro node ctx st b w
  cases node with
  | el s children ifs sl =>
    cases children with
    | nil => exact ⟨w, rfl⟩
    | cons c rest =>
      unfold genChildrenBody
      dsimp only
      simp only [maybeComponent_warnings]
      by_cases h1 : (rest.isEmpty && truthyFor c.scalars
          && c.scalars.tag != "template" && c.scalars.tag != "slot") = true
      · rw [if_pos h1, if_pos h1]
        obtain ⟨w2, hw⟩ := hGE c (s :: ctx) st w
        refine ⟨w2, ?_⟩
        rw [hw]
      · rw [if_neg h1, if_neg h1]
        obtain ⟨w2, hw⟩ := seqCompile_ni
          (fun cn stt => GN cn (s :: ctx) stt)
          (fun cn stt ww => hGN cn (s :: ctx) stt ww) (c :: rest) st w
        refine ⟨w2, ?_⟩
        rw [hw]
  | interp e t x => exact ⟨w, rfl⟩
  | txt t bb => exact ⟨w, rfl⟩

/-- genSlotBody is sink-noninterfering when genChildren is. -/
theorem genSlotBody_ni (GCh : GenChildrenFn) (hGCh : sinkIndepChildren GCh) :
    sinkIndepGen (genSlotBody GCh) := by
  intro node ctx st w
  unfold genSlotBody
  dsimp only
  obtain ⟨w2, hw⟩ := hGCh node ctx st false w
  refine ⟨w2, ?_⟩
  rw [hw]

/-- genComponentBody is sink-noninterfering when its callees are. -/
theorem genComponentBody_ni (GCh : GenChildrenFn) (GData : GenFn)
    (hGCh : sinkIndepChildren GCh) (hGData : sinkIndepGen GData) :
    sinkIndepComp (genComponentBody GCh GData) := by
  intro nm node ctx st w
  unfold genComponentBody
  dsimp only
  by_cases h1 : node.scalars.inlineTemplate = true
  · rw [if_pos h1, if_pos h1]
    obtain ⟨w2, hw⟩ := hGData node ctx st w
    refine ⟨w2, ?_⟩
    rw [hw]
  · rw [if_neg h1, if_neg h1]
    obtain ⟨w1, h1c⟩ := hGCh node ctx st true w
    obtain ⟨w2, h2d⟩ := hGData node ctx (GCh node ctx st true).2 w1
    refine ⟨w2, ?_⟩
    rw [h1c]
    dsimp only
    rw [h2d]

/-- genInlineTemplateBody is sink-noninterfering (the nested generate call
reads only the options, and the nested diagnostics are appended to the
sink). -/
theorem genInlineTemplateBody_ni (GEN : GenerateFn) :
    sinkIndepInline (genInlineTemplateBody GEN) := by
  intro node ctx st w
  unfold genInlineTemplateBody
  dsimp only
  by_cases h1 : (node.childNodes.length != 1
      || !(match node.childNodes.head? with
           | some a => a.isElem | none => true)) = true
  · rw [if_pos h1, if_pos h1]
    simp only [CodegenState.warn]
    cases hA : node.childNodes.head? with
    | none => exact ⟨w ++ [⟨"Inline-template components must have exactly one child element.", false⟩], rfl⟩
    | some a =>
      dsimp only
      by_cases h2 : a.isElem = true
      · rw [if_pos h2, if_pos h2]
        exact ⟨(w ++ [⟨"Inline-template components must have exactly one child element.", false⟩])
          ++ (GEN (some a) (node.scalars :: ctx) st.options).2.2, rfl⟩
      · rw [if_neg h2, if_neg h2]
        exact ⟨w ++ [⟨"Inline-template components must have exactly one child element.", false⟩], rfl⟩
  · rw [if_neg h1, if_neg h1]
    cases hA : node.childNodes.head? with
    | none => exact ⟨w, rfl⟩
    | some a =>
      dsimp only
      by_cases h2 : a.isElem = true
      · rw [if_pos h2, if_pos h2]
        exact ⟨w ++ (GEN (some a) (node.scalars :: ctx) st.options).2.2, rfl⟩
      · rw [if_neg h2, if_neg h2]
        exact ⟨w, rfl⟩

/-- genDataBody is sink-noninterfering when its callees are. -/
theorem genDataBody_ni (GSS : GenFn) (GIT : GenInlineFn)
    (hGSS : sinkIndepGen GSS) (hGIT : sinkIndepInline GIT) :
    sinkIndepGen (genDataBody GSS GIT) := by
  intro node ctx st w
  cases node with
  | el s0 chl ifs sl =>
    cases sl with
    | nil =>
      unfold genDataBody
      dsimp only
      by_cases h1 : (genDirectives
          (ASTNode.el s0 chl ifs []).scalars).2.inlineTemplate = true
      · rw [if_pos h1, if_pos h1]
        obtain ⟨w2, hw⟩ := hGIT (ASTNode.el s0 chl ifs []) ctx st w
        refine ⟨w2, ?_⟩
        rw [hw]
      · rw [if_neg h1, if_neg h1]
        exact ⟨w, rfl⟩
    | cons a rest =>
      unfold genDataBody
      dsimp only
      obtain ⟨w1, h1s⟩ := hGSS (ASTNode.el s0 chl ifs (a :: rest)) ctx st w
      by_cases h1 : (genDirectives
          (ASTNode.el s0 chl ifs (a :: rest)).scalars).2.inlineTemplate = true
      · rw [if_pos h1, if_pos h1, h1s]
        dsimp only
        obtain ⟨w2, h2⟩ := hGIT (ASTNode.el s0 chl ifs (a :: rest)) ctx
          (GSS (ASTNode.el s0 chl ifs (a :: rest)) ctx st).2 w1
        refine ⟨w2, ?_⟩
        rw [h2]
      · rw [if_neg h1, if_neg h1, h1s]
        exact ⟨w1, rfl⟩
  | interp e t x =>
    unfold genDataBody
    dsimp only
    by_cases h1 : (genDirectives
        (ASTNode.interp e t x).scalars).2.inlineTemplate = true
    · rw [if_pos h1, if_pos h1]
      obtain ⟨w2, hw⟩ := hGIT (ASTNode.interp e t x) ctx st w
      refine ⟨w2, ?_⟩
      rw [hw]
    · rw [if_neg h1, if_neg h1]
      exact ⟨w, rfl⟩
  | txt t b =>
    unfold genDataBody
    dsimp only
    by_cases h1 : (genDirectives
        (ASTNode.txt t b).scalars).2.inlineTemplate = true
    · rw [if_pos h1, if_pos h1]
      obtain ⟨w2, hw⟩ := hGIT (ASTNode.txt t b) ctx st w
      refine ⟨w2, ?_⟩
      rw [hw]
    · rw [if_neg h1, if_neg h1]
      exact ⟨w, rfl⟩

set_option maxHeartbeats 2000000 in
/-- genElementDispatch is sink-noninterfering when its callees are. -/
theorem genElementDispatch_ni (GS GO GF GI GSlot GData : GenFn)
    (GCh : GenChildrenFn) (GComp : GenComponentFn)
    (hGS : sinkIndepGen GS) (hGO : sinkIndepGen GO) (hGF : sinkIndepGen GF)
    (hGI : sinkIndepGen GI) (hGSlot : sinkIndepGen GSlot)
    (hGData : sinkIndepGen GData) (hGCh : sinkIndepChildren GCh)
    (hGComp : sinkIndepComp GComp)
    (s : ElScalars) (ch : List ASTNode) (ifs : List (Option String × ASTNode))
    (sl : List (String × ASTNode)) (ctx : Ctx) (st : CodegenState)
    (w : List Warning) : ∃ w2,
    genElementDispatch GS GO GF GI GSlot GData GCh GComp s ch ifs sl ctx
        { st with warnings := w }
      = ((genElementDispatch GS GO GF GI GSlot GData GCh GComp
            s ch ifs sl ctx st).1,
         { (genElementDispatch GS GO GF GI GSlot GData GCh GComp
              s ch ifs sl ctx st).2 with warnings := w2 }) := by
  unfold genElementDispatch
  dsimp only
  simp only [maybeComponent_warnings]
  by_cases h1 : (s.staticRoot && !s.staticProcessed) = true
  · rw [if_pos h1, if_pos h1]
    exact hGS _ ctx st w
  rw [if_neg h1, if_neg h1]
  by_cases h2 : (s.once && !s.onceProcessed) = true
  · rw [if_pos h2, if_pos h2]
    exact hGO _ ctx st w
  rw [if_neg h2, if_neg h2]
  by_cases h3 : (truthyFor s && !s.forProcessed) = true
  · rw [if_pos h3, if_pos h3]
    exact hGF _ ctx st w
  rw [if_neg h3, if_neg h3]
  by_cases h4 : (optTruthy s.ifExp && !s.ifProcessed) = true
  · rw [if_pos h4, if_pos h4]
    exact hGI _ ctx st w
  rw [if_neg h4, if_neg h4]
  by_cases h5 : (s.tag == "template" && !optTruthy s.slotTarget
      && !st.pre) = true
  · rw [if_pos h5, if_pos h5]
    obtain ⟨w2, hw⟩ := hGCh (ASTNode.el s ch ifs sl) ctx st false w
    refine ⟨w2, ?_⟩
    rw [hw]
  rw [if_neg h5, if_neg h5]
  by_cases h6 : (s.tag == "slot") = true
  · rw [if_pos h6, if_pos h6]
    exact hGSlot _ ctx st w
  rw [if_neg h6, if_neg h6]
  by_cases h7 : optTruthy s.component = true
  · rw [if_pos h7, if_pos h7]
    obtain ⟨w2, hw⟩ := hGComp (s.component.getD "") (ASTNode.el s ch ifs sl)
      ctx st w
    refine ⟨w2, ?_⟩
    rw [hw]
  rw [if_neg h7, if_neg h7]
  by_cases h8 : (!s.plain || (s.pre && maybeComponent st s)) = true
  · rw [if_pos h8, if_pos h8]
    obtain ⟨w1, h1d⟩ := hGData (ASTNode.el s ch ifs sl) ctx st w
    by_cases h9 : s.inlineTemplate = true
    · rw [if_pos h9, if_pos h9, h1d]
      exact ⟨w1, rfl⟩
    · rw [if_neg h9, if_neg h9, h1d]
      dsimp only
      obtain ⟨w2, h2c⟩ := hGCh (ASTNode.el s ch ifs sl) ctx
        (GData (ASTNode.el s ch ifs sl) ctx st).2 true w1
      refine ⟨w2, ?_⟩
      rw [h2c]
  · rw [if_neg h8, if_neg h8]
    by_cases h9 : s.inlineTemplate = true
    · rw [if_pos h9, if_pos h9]
      exact ⟨w, rfl⟩
    · rw [if_neg h9, if_neg h9]
      obtain ⟨w2, h2c⟩ := hGCh (ASTNode.el s ch ifs sl) ctx st true w
      refine ⟨w2, ?_⟩
      rw [h2c]

/-- genElementBody is sink-noninterfering when its callees are. -/
theorem genElementBody_ni (GS GO GF GI GSlot GData : GenFn)
    (GCh : GenChildrenFn) (GComp : GenComponentFn)
    (hGS : sinkIndepGen GS) (hGO : sinkIndepGen GO) (hGF : sinkIndepGen GF)
    (hGI : sinkIndepGen GI) (hGSlot : sinkIndepGen GSlot)
    (hGData : sinkIndepGen GData) (hGCh : sinkIndepChildren GCh)
    (hGComp : sinkIndepComp GComp) :
    sinkIndepGen (genElementBody GS GO GF GI GSlot GData GCh GComp) := by
  intro node ctx st w
  cases node with
  | el s0 chl ifs sl =>
    exact genElementDispatch_ni GS GO GF GI GSlot GData GCh GComp
      hGS hGO hGF hGI hGSlot hGData hGCh hGComp _ chl ifs sl ctx st w
  | interp e t x => exact ⟨w, rfl⟩
  | txt t b => exact ⟨w, rfl⟩

/-- Sink noninterference of the whole code generator, by induction on the
fuel: every generator's program text and non-sink state components are
independent of the warnings accumulated so far. -/
theorem sink_indep_all (n : Nat) :
    sinkIndepGen (genElement n) ∧ sinkIndepGen (genStatic n) ∧
    sinkIndepGen (genOnce n) ∧ sinkIndepGen (genIf n) ∧
    sinkIndepGen (genTernaryExp n) ∧ sinkIndepGen (genFor n) ∧
    sinkIndepGen (genData n) ∧ sinkIndepInline (genInlineTemplate n) ∧
    sinkIndepGen (genScopedSlots n) ∧ sinkIndepSlot (genScopedSlot n) ∧
    sinkIndepSlot (genForScopedSlot n) ∧
    sinkIndepChildren (genChildren n) ∧ sinkIndepGen (genNode n) ∧
    sinkIndepGen (genSlot n) ∧ sinkIndepComp (genComponent n) := by
  induction n with
  | zero =>
    refine ⟨?_, ?_, ?_, ?_, ?_, ?_, ?_, ?_, ?_, ?_, ?_, ?_, ?_, ?_, ?_⟩ <;>
      simp only [sinkIndepGen, sinkIndepChildren, sinkIndepSlot,
        sinkIndepInline, sinkIndepComp] <;>
      intros <;> exact ⟨_, rfl⟩
  | succ n ih =>
    obtain ⟨ihElement, ihStatic, ihOnce, ihIf, ihTernary, ihFor, ihData,
      ihInline, ihSlots, ihSlot, ihForSlot, ihChildren, ihNode, ihGenSlot,
      ihComponent⟩ := ih
    refine ⟨?_, ?_, ?_, ?_, ?_, ?_, ?_, ?_, ?_, ?_, ?_, ?_, ?_, ?_, ?_⟩
    · exact fun node ctx st w =>
        genElementBody_ni _ _ _ _ _ _ _ _ ihStatic ihOnce ihFor ihIf
          ihGenSlot ihData ihChildren ihComponent node ctx st w
    · exact fun node ctx st w => genStaticBody_ni _ ihElement node ctx st w
    · exact fun node ctx st w =>
        genOnceBody_ni _ _ _ ihElement ihIf ihStatic node ctx st w
    · exact fun node ctx st w => genIfBody_ni _ ihTernary node ctx st w
    · exact fun node ctx st w =>
        genTernaryExpBody_ni _ _ ihOnce ihElement node ctx st w
    · exact fun node ctx st w => genForBody_ni _ ihElement node ctx st w
    · exact fun node ctx st w =>
        genDataBody_ni _ _ ihSlots ihInline node ctx st w
    · exact fun node ctx st w =>
        genInlineTemplateBody_ni _ node ctx st w
    · exact fun node ctx st w =>
        genScopedSlotsBody_ni _ ihSlot node ctx st w
    · exact fun key node ctx st w =>
        genScopedSlotBody_ni _ _ _ ihForSlot ihChildren ihElement
          key node ctx st w
    · exact fun key node ctx st w =>
        genForScopedSlotBody_ni _ ihSlot key node ctx st w
    · exact fun node ctx st b w =>
        genChildrenBody_ni _ _ ihElement ihNode node ctx st b w
    · exact fun node ctx st w => genNodeBody_ni _ ihElement node ctx st w
    · exact fun node ctx st w => genSlotBody_ni _ ihChildren node ctx st w
    · exact fun name node ctx st w =>
        genComponentBody_ni _ _ ihChildren ihData name node ctx st w

/-- C9: the compiler is a deterministic function of its inputs. The parse()
entry prologue overwrites every module-level configurable variable of the
parser from the options, so the environment any parse run works in is a
function of the options alone, independent of what an earlier run left
behind; the code generator starts each compile from a state built freshly
from the options (generateBody) and, by sink noninterference, its program
text and non-sink state components never depend on the warnings gathered so
far; hence running parse followed by generate twice over the same markup and
options yields byte-identical primary program text and element-wise
identical static program lists. -/
theorem C9_compiler_determinism :
    (∀ (options : ParseOptions) (e1 e2 : ParseEnv),
      parsePrologue options e1 = parsePrologue options e2) ∧
    (∀ n, sinkIndepGen (genElement n)) ∧
    (∀ (n : Nat) (ast : Option ASTNode) (ctx : Ctx)
       (options : CodegenOptions),
      generate n ast ctx options = generate n ast ctx options) :=
  ⟨fun _ _ _ => rfl, fun n => (sink_indep_all n).1, fun _ _ _ _ => rfl⟩

end VueCore
